import Mathlib

/-!
Verification of `rename_videos.py` (asphaltanchors/timestamp-renamer).

Shallow embedding notes:

* Python `datetime` objects are civil tuples (year, month, day, hour, minute,
  second, microsecond) plus an optional fixed UTC offset (`tzOff`, in seconds;
  `some 0` is `timezone.utc`, `none` is a naive datetime).  This mirrors
  CPython's representation, so `astimezone` is civil-tuple arithmetic.
* External subprocess calls (`exiftool`, `ffprobe`) are modelled as oracle
  functions returning `Option` values; `none` stands for any failure the
  Python code catches with `except Exception` (missing binary, non-zero exit,
  malformed JSON).  The JSON structures are modelled by the record types
  `ExifEntry` / `FfprobeData` holding exactly the fields the script reads.
* `datetime.fromisoformat` is modelled for CPython 3.11+ semantics on
  complete calendar dates: `YYYY-MM-DD` or `YYYYMMDD`, then optionally any
  single separator character, a time `HH[[:]MM[[:]SS[.digits]]]`, and an
  optional offset `±HH[[:]MM[[:]SS]]` or `Z`.  Week/ordinal dates and
  fractional offsets are outside the model (no claim depends on them).
* `re` character classes and case-insensitivity are modelled over ASCII
  (`Char.isDigit`, `Char.toLower`); the Unicode extras of Python's `\d` and
  `re.IGNORECASE` are outside the model.
* The America/Los_Angeles zoneinfo rules are modelled by the post-2007 US
  DST rule (second Sunday in March 02:00 standard → first Sunday in November
  02:00 daylight, offsets −8h/−7h), which is what tzdata prescribes for every
  year from 2007 on; theorems about arbitrary instants carry a `2007 ≤ year`
  hypothesis.
-/

/-! ## Calendar arithmetic -/

def isLeap (y : Nat) : Bool := (y % 4 == 0 && y % 100 != 0) || (y % 400 == 0)

def daysInMonth (y mo : Nat) : Nat :=
  if mo = 2 then (if isLeap y then 29 else 28)
  else if mo = 4 ∨ mo = 6 ∨ mo = 9 ∨ mo = 11 then 30
  else 31

/-- A Python `datetime`: civil fields plus optional fixed UTC offset in
seconds (`none` = naive, `some 0` = `timezone.utc`). -/
structure PyDatetime where
  year : Nat
  month : Nat
  day : Nat
  hour : Nat
  minute : Nat
  second : Nat
  usec : Nat
  tzOff : Option Int
deriving DecidableEq, Repr

/-- The invariant CPython's `datetime` constructor enforces on its fields. -/
def ValidCivil (dt : PyDatetime) : Prop :=
  1 ≤ dt.year ∧ dt.year ≤ 9999 ∧ 1 ≤ dt.month ∧ dt.month ≤ 12 ∧
  1 ≤ dt.day ∧ dt.day ≤ daysInMonth dt.year dt.month ∧
  dt.hour ≤ 23 ∧ dt.minute ≤ 59 ∧ dt.second ≤ 59 ∧ dt.usec < 1000000

instance (dt : PyDatetime) : Decidable (ValidCivil dt) := by
  unfold ValidCivil; infer_instance

def prevDayD (y mo d : Nat) : Nat × Nat × Nat :=
  if 1 < d then (y, mo, d - 1)
  else if 1 < mo then (y, mo - 1, daysInMonth y (mo - 1))
  else (y - 1, 12, 31)

def nextDayD (y mo d : Nat) : Nat × Nat × Nat :=
  if d < daysInMonth y mo then (y, mo, d + 1)
  else if mo < 12 then (y, mo + 1, 1)
  else (y + 1, 1, 1)

/-- Shift a civil tuple by `delta` seconds, `|delta| < 86400` (the only
offsets that arise are fixed timezone offsets, strictly below one day). -/
def shiftCivil (dt : PyDatetime) (delta : Int) : PyDatetime :=
  let sod : Int := (dt.hour * 3600 + dt.minute * 60 + dt.second : Nat)
  let t := sod + delta
  if t < 0 then
    let t2 := (t + 86400).toNat
    let ymd := prevDayD dt.year dt.month dt.day
    ⟨ymd.1, ymd.2.1, ymd.2.2, t2 / 3600, t2 % 3600 / 60, t2 % 60, dt.usec, dt.tzOff⟩
  else if t < 86400 then
    let t2 := t.toNat
    ⟨dt.year, dt.month, dt.day, t2 / 3600, t2 % 3600 / 60, t2 % 60, dt.usec, dt.tzOff⟩
  else
    let t2 := (t - 86400).toNat
    let ymd := nextDayD dt.year dt.month dt.day
    ⟨ymd.1, ymd.2.1, ymd.2.2, t2 / 3600, t2 % 3600 / 60, t2 % 60, dt.usec, dt.tzOff⟩

def sakamotoAdj (mo : Nat) : Nat :=
  match mo with
  | 1 => 0 | 2 => 3 | 3 => 2 | 4 => 5 | 5 => 0 | 6 => 3
  | 7 => 5 | 8 => 1 | 9 => 4 | 10 => 6 | 11 => 2 | _ => 4

/-- Day of week, 0 = Sunday (Sakamoto's method, proleptic Gregorian). -/
def dayOfWeek (y mo d : Nat) : Nat :=
  let y' := if mo < 3 then y - 1 else y
  (y' + y' / 4 - y' / 100 + y' / 400 + sakamotoAdj mo + d) % 7

def secondSundayMarch (y : Nat) : Nat := (1 + (7 - dayOfWeek y 3 1) % 7) + 7

def firstSundayNov (y : Nat) : Nat := 1 + (7 - dayOfWeek y 11 1) % 7

/-- Whether a UTC civil reading falls in US Pacific daylight-saving time:
from the second Sunday of March 10:00 UTC (02:00 PST) up to the first Sunday
of November 09:00 UTC (02:00 PDT). -/
def inPacificDST (dt : PyDatetime) : Bool :=
  let ss := secondSundayMarch dt.year
  let fs := firstSundayNov dt.year
  ((3 < dt.month) || (dt.month == 3 && (ss < dt.day || (dt.day == ss && 10 ≤ dt.hour)))) &&
  ((dt.month < 11) || (dt.month == 11 && (dt.day < fs || (dt.day == fs && dt.hour < 9))))

/-- UTC offset (seconds) of `ZoneInfo("America/Los_Angeles")` at a UTC
instant, per the post-2007 tzdata rule (see header note). -/
def pacOffset (dt : PyDatetime) : Int := if inPacificDST dt then -25200 else -28800

/-! ## Decimal formatting -/

def digitChar (n : Nat) : Char := Char.ofNat (48 + n % 10)

def digitVal (c : Char) : Nat := c.toNat - 48

def pad2 (n : Nat) : List Char := [digitChar (n / 10 % 10), digitChar (n % 10)]

def pad4 (n : Nat) : List Char :=
  [digitChar (n / 1000 % 10), digitChar (n / 100 % 10), digitChar (n / 10 % 10),
   digitChar (n % 10)]

/-- `strftime("%Y%m%d-%H%M%S")` on a (valid, four-digit-year) datetime. -/
def formatStamp (dt : PyDatetime) : String :=
  ⟨pad4 dt.year ++ pad2 dt.month ++ pad2 dt.day ++
    '-' :: (pad2 dt.hour ++ pad2 dt.minute ++ pad2 dt.second)⟩

/-- `pacific_stamp`: convert an aware UTC datetime to Pacific time and format
it as `YYYYMMDD-HHMMSS`. -/
def pacific_stamp (dt : PyDatetime) : String :=
  formatStamp (shiftCivil dt (pacOffset dt))

/-! ## Model of `datetime.fromisoformat` (see header note for scope) -/

def read2 : List Char → Option (Nat × List Char)
  | a :: b :: r =>
    if a.isDigit && b.isDigit then some (digitVal a * 10 + digitVal b, r) else none
  | _ => none

def read4 (l : List Char) : Option (Nat × List Char) :=
  match read2 l with
  | some (hi, r) =>
    match read2 r with
    | some (lo, r2) => some (hi * 100 + lo, r2)
    | none => none
  | none => none

def parseDateIso (l : List Char) : Option (Nat × Nat × Nat × List Char) :=
  match read4 l with
  | some (y, r) =>
    match r with
    | c :: r1 =>
      if c = '-' then
        (match read2 r1 with
         | some (mo, r2) =>
           (match r2 with
            | c2 :: r3 =>
              if c2 = '-' then
                (match read2 r3 with
                 | some (d, r4) => some (y, mo, d, r4)
                 | none => none)
              else none
            | [] => none)
         | none => none)
      else
        (match read2 (c :: r1) with
         | some (mo, r2) =>
           (match read2 r2 with
            | some (d, r3) => some (y, mo, d, r3)
            | none => none)
         | none => none)
    | [] => none
  | none => none

/-- Fractional-second digits: value of the first six digits, scaled to
microseconds (digits beyond six are truncated, as in CPython 3.11+). -/
def fracValue (ds : List Char) : Nat :=
  let d6 := ds.take 6
  (d6.foldl (fun a c => a * 10 + digitVal c) 0) * 10 ^ (6 - d6.length)

def parseFracIso (l : List Char) : Option (Nat × List Char) :=
  let p := l.span Char.isDigit
  if p.1.isEmpty then none else some (fracValue p.1, p.2)

/-- Optional fractional part directly after a seconds field: consumed when
the next character is `'.'` or `','`. -/
def parseAfterSec (h mi s : Nat) (r : List Char) : Option (Nat × Nat × Nat × Nat × List Char) :=
  match r with
  | c :: r1 =>
    if c = '.' ∨ c = ',' then
      (match parseFracIso r1 with
       | some (us, r2) => some (h, mi, s, us, r2)
       | none => none)
    else some (h, mi, s, 0, c :: r1)
  | [] => some (h, mi, s, 0, [])

def parseTimeIso (l : List Char) : Option (Nat × Nat × Nat × Nat × List Char) :=
  match read2 l with
  | some (h, r) =>
    match r with
    | c :: r1 =>
      if c = ':' then
        (match read2 r1 with
         | some (mi, r2) =>
           (match r2 with
            | c2 :: r3 =>
              if c2 = ':' then
                (match read2 r3 with
                 | some (s, r4) => parseAfterSec h mi s r4
                 | none => none)
              else some (h, mi, 0, 0, c2 :: r3)
            | [] => some (h, mi, 0, 0, []))
         | none => none)
      else
        (match read2 (c :: r1) with
         | some (mi, r2) =>
           (match read2 r2 with
            | some (s, r3) => parseAfterSec h mi s r3
            | none => some (h, mi, 0, 0, r2))
         | none => some (h, 0, 0, 0, c :: r1))
    | [] => some (h, 0, 0, 0, [])
  | none => none

def parseTzIso (l : List Char) : Option (Option Int) :=
  match l with
  | [] => some none
  | c :: r =>
    if c = 'Z' then (if r.isEmpty then some (some 0) else none)
    else if c = '+' ∨ c = '-' then
      match read2 r with
      | some (oh, r1) =>
        let sign : Int := if c = '-' then -1 else 1
        let mk : Nat → Nat → Nat → Option (Option Int) := fun hh mm ss =>
          if hh ≤ 23 && mm ≤ 59 && ss ≤ 59 then
            some (some (sign * ((hh * 3600 + mm * 60 + ss : Nat) : Int)))
          else none
        match r1 with
        | [] => mk oh 0 0
        | ':' :: r2 =>
          (match read2 r2 with
           | some (om, r3) =>
             (match r3 with
              | [] => mk oh om 0
              | ':' :: r4 =>
                (match read2 r4 with
                 | some (os, r5) => if r5.isEmpty then mk oh om os else none
                 | none => none)
              | _ => none)
           | none => none)
        | _ =>
          (match read2 r1 with
           | some (om, r2) =>
             (match r2 with
              | [] => mk oh om 0
              | _ =>
                (match read2 r2 with
                 | some (os, r3) => if r3.isEmpty then mk oh om os else none
                 | none => none))
           | none => none)
      | none => none
    else none

def validDateB (y mo d : Nat) : Bool :=
  1 ≤ y && y ≤ 9999 && 1 ≤ mo && mo ≤ 12 && 1 ≤ d && d ≤ daysInMonth y mo

def validTimeB (h mi s : Nat) : Bool := h ≤ 23 && mi ≤ 59 && s ≤ 59

def pyFromisoformat (str : String) : Option PyDatetime :=
  match parseDateIso str.data with
  | some (y, mo, d, r) =>
    match r with
    | [] => if validDateB y mo d then some ⟨y, mo, d, 0, 0, 0, 0, none⟩ else none
    | _sep :: r1 =>
      match parseTimeIso r1 with
      | some (h, mi, s, us, r2) =>
        (match parseTzIso r2 with
         | some off =>
           if validDateB y mo d && validTimeB h mi s then
             some ⟨y, mo, d, h, mi, s, us, off⟩
           else none
         | none => none)
      | none => none
  | none => none

/-! ## Model of the two `strptime` fallback patterns -/

/-- `%m`/`%d`/`%H`/`%M`/`%S`: one or two digits, taken greedily (CPython's
regexes backtrack, but with a non-digit delimiter following, greedy reading
plus range validation is observationally identical). -/
def readFlex2 : List Char → Option (Nat × List Char)
  | a :: r =>
    if a.isDigit then
      match r with
      | b :: r2 => if b.isDigit then some (digitVal a * 10 + digitVal b, r2)
                   else some (digitVal a, r)
      | [] => some (digitVal a, [])
    else none
  | [] => none

/-- `datetime.strptime(s, "%Y-%m-%dT%H:%M:%S")`, as an `Option` (range
violations, including the constructor's, count as failure). -/
def strptimeYmdHMS (str : String) : Option PyDatetime :=
  match read4 str.data with
  | some (y, r) =>
    match r with
    | '-' :: r1 =>
      (match readFlex2 r1 with
       | some (mo, r2) =>
         (match r2 with
          | '-' :: r3 =>
            (match readFlex2 r3 with
             | some (d, r4) =>
               (match r4 with
                | 'T' :: r5 =>
                  (match readFlex2 r5 with
                   | some (h, r6) =>
                     (match r6 with
                      | ':' :: r7 =>
                        (match readFlex2 r7 with
                         | some (mi, r8) =>
                           (match r8 with
                            | ':' :: r9 =>
                              (match readFlex2 r9 with
                               | some (s, r10) =>
                                 if r10.isEmpty && validDateB y mo d && validTimeB h mi s
                                 then some ⟨y, mo, d, h, mi, s, 0, none⟩ else none
                               | none => none)
                            | _ => none)
                         | none => none)
                      | _ => none)
                   | none => none)
                | _ => none)
             | none => none)
          | _ => none)
       | none => none)
    | _ => none
  | none => none

/-- `datetime.strptime(s, "%Y-%m-%dT%H:%M:%S.%f")` (`%f`: one to six
fractional digits, right-padded to microseconds). -/
def strptimeYmdHMSf (str : String) : Option PyDatetime :=
  match read4 str.data with
  | some (y, r) =>
    match r with
    | '-' :: r1 =>
      (match readFlex2 r1 with
       | some (mo, r2) =>
         (match r2 with
          | '-' :: r3 =>
            (match readFlex2 r3 with
             | some (d, r4) =>
               (match r4 with
                | 'T' :: r5 =>
                  (match readFlex2 r5 with
                   | some (h, r6) =>
                     (match r6 with
                      | ':' :: r7 =>
                        (match readFlex2 r7 with
                         | some (mi, r8) =>
                           (match r8 with
                            | ':' :: r9 =>
                              (match readFlex2 r9 with
                               | some (s, r10) =>
                                 (match r10 with
                                  | '.' :: r11 =>
                                    let p := r11.span Char.isDigit
                                    if !p.1.isEmpty && p.1.length ≤ 6 && p.2.isEmpty
                                        && validDateB y mo d && validTimeB h mi s
                                    then some ⟨y, mo, d, h, mi, s, fracValue p.1, none⟩
                                    else none
                                  | _ => none)
                               | none => none)
                            | _ => none)
                         | none => none)
                      | _ => none)
                   | none => none)
                | _ => none)
             | none => none)
          | _ => none)
       | none => none)
    | _ => none
  | none => none

/-! ## `_parse_iso_to_utc` and `run_ffprobe_datetime` -/

/-- Python's `s.strip()` (whitespace model: `Char.isWhitespace`). -/
def pyStrip (s : String) : String :=
  ⟨((s.data.dropWhile Char.isWhitespace).reverse.dropWhile Char.isWhitespace).reverse⟩

/-- `s.endswith("Z")`. -/
def endsWithZ (s : String) : Bool := s.data.getLast? == some 'Z'

/-- Python `s.replace(c, r)` for a single-character needle: replaces every
occurrence. -/
def replaceChar (c : Char) (r : String) (s : String) : String :=
  ⟨s.data.flatMap (fun a => if a = c then r.data else [a])⟩

def setUtc (dt : PyDatetime) : PyDatetime := { dt with tzOff := some 0 }

/-- `dt.replace(tzinfo=utc)` when naive, `dt.astimezone(utc)` when aware. -/
def toUtc (dt : PyDatetime) : PyDatetime :=
  match dt.tzOff with
  | none => setUtc dt
  | some off => setUtc (shiftCivil dt (-off))

/-- `_parse_iso_to_utc`. -/
def parse_iso_to_utc (s : String) : Option PyDatetime :=
  let s0 := pyStrip s
  let s1 := if endsWithZ s0 then replaceChar 'Z' "+00:00" s0 else s0
  let s2 := replaceChar ' ' "T" s1
  match pyFromisoformat s2 with
  | some dt => some (toUtc dt)
  | none =>
    match strptimeYmdHMS s2 with
    | some dt => some (setUtc dt)
    | none =>
      match strptimeYmdHMSf s2 with
      | some dt => some (setUtc dt)
      | none => none

/-- The `for ts in candidates` loop: first candidate that parses. -/
def firstParse : List String → Option PyDatetime
  | [] => none
  | t :: ts =>
    match parse_iso_to_utc t with
    | some dt => some dt
    | none => firstParse ts

/-- The ffprobe JSON fields the script reads: `format.tags.creation_time`
and `streams[*].tags.creation_time` (in stream order, `none` when the tag
is absent). -/
structure FfprobeData where
  fmtCreation : Option String
  streamCreations : List (Option String)
deriving DecidableEq, Repr

def ffprobeCandidates (d : FfprobeData) : List String :=
  (match d.fmtCreation with | some t => [t] | none => []) ++
    d.streamCreations.filterMap id

/-- `run_ffprobe_datetime`; the argument is the ffprobe invocation's result
(`none` = the subprocess/JSON failure path). -/
def run_ffprobe_datetime (out : Option FfprobeData) : Option PyDatetime :=
  match out with
  | none => none
  | some d => firstParse (ffprobeCandidates d)

/-! ## `is_already_renamed`: the regex
`^\d{8}-\d{6}-(iphone|android)\.(mov|mp4|heic|jpg|jpeg)$` with `re.match`
and `re.IGNORECASE`, transliterated to a character-list matcher. -/

def takeDigits : Nat → List Char → Option (List Char)
  | 0, l => some l
  | _ + 1, [] => none
  | n + 1, c :: l => if c.isDigit then takeDigits n l else none

/-- Consume a literal pattern case-insensitively, returning the rest. -/
def dropCI : List Char → List Char → Option (List Char)
  | [], l => some l
  | _ :: _, [] => none
  | p :: ps, c :: l => if c.toLower = p.toLower then dropCI ps l else none

def extLits : List (List Char) :=
  [['m','o','v'], ['m','p','4'], ['h','e','i','c'], ['j','p','g'], ['j','p','e','g']]

def iphoneLit : List Char := ['i','p','h','o','n','e']

def androidLit : List Char := ['a','n','d','r','o','i','d']

def extEnd (fin : List Char → Bool) (l : List Char) : Bool :=
  extLits.any (fun e => match dropCI e l with | some r => fin r | none => false)

def afterDev (fin : List Char → Bool) (l : List Char) : Bool :=
  match l with
  | '.' :: r => extEnd fin r
  | _ => false

def devMatch (fin : List Char → Bool) (l : List Char) : Bool :=
  [iphoneLit, androidLit].any
    (fun dv => match dropCI dv l with | some r => afterDev fin r | none => false)

def matchCanon (fin : List Char → Bool) (l : List Char) : Bool :=
  match takeDigits 8 l with
  | some ('-' :: r1) =>
    (match takeDigits 6 r1 with
     | some ('-' :: r2) => devMatch fin r2
     | _ => false)
  | _ => false

/-- Python's `$` (no `re.MULTILINE`): matches at the end of the string or
just before a trailing newline. -/
def pyLineEnd (l : List Char) : Bool := l.isEmpty || l == ['\n']

/-- `is_already_renamed`. -/
def is_already_renamed (s : String) : Bool := matchCanon pyLineEnd s.data

/-! ## Device detection, `splitext`, `unique_target`, and the main loop -/

def FILE_EXTS : List (String × String) :=
  [(".mov", "iphone"), (".mp4", "android"), (".heic", "iphone"),
   (".jpg", "android"), (".jpeg", "android")]

def strLower (s : String) : String := ⟨s.data.map Char.toLower⟩

/-- Split a character list at its last `'.'` (returning the part before and
the part from the dot on), if any. -/
def lastDotSplit : List Char → Option (List Char × List Char)
  | [] => none
  | c :: t =>
    match lastDotSplit t with
    | some (b, e) => some (c :: b, e)
    | none => if c = '.' then some ([], c :: t) else none

/-- `os.path.splitext` on a bare file name: split at the last dot unless all
characters before it are dots (hidden files like `.mov` have no extension). -/
def splitext (s : String) : String × String :=
  match lastDotSplit s.data with
  | some (b, e) => if b.all (· = '.') then (s, "") else (⟨b⟩, ⟨e⟩)
  | none => (s, "")

def isPrefOf : List Char → List Char → Bool
  | [], _ => true
  | _ :: _, [] => false
  | a :: as, b :: bs => a == b && isPrefOf as bs

/-- Python's `sub in s` substring test. -/
def containsSub (n : List Char) : List Char → Bool
  | [] => n.isEmpty
  | c :: t => isPrefOf n (c :: t) || containsSub n t

/-- One entry of exiftool's `-j` JSON output: the four fields the script
reads, `none` when absent (`metadata.get(..., "")` then yields `""`). -/
structure ExifEntry where
  make : Option String
  model : Option String
  androidMake : Option String
  androidModel : Option String
deriving DecidableEq, Repr

/-- The extension-based fallback at the bottom of
`detect_device_from_metadata`. -/
def extFallbackDevice (path : String) : String :=
  let el := strLower (splitext path).2
  if el = ".mov" ∨ el = ".heic" then "iphone" else "android"

/-- `detect_device_from_metadata`; first argument is the exiftool result
(`none` = subprocess/JSON failure). -/
def detect_device_from_metadata (exifOut : Option (List ExifEntry)) (path : String) :
    String :=
  match exifOut with
  | some (meta :: _) =>
    let mk := strLower (meta.make.getD "")
    let md := strLower (meta.model.getD "")
    let amk := strLower (meta.androidMake.getD "")
    let amd := strLower (meta.androidModel.getD "")
    if mk = "apple" ∨ containsSub "iphone".data md.data then "iphone"
    else if amk ≠ "" ∨ amd ≠ "" ∨ mk = "google" ∨ containsSub "pixel".data md.data then
      "android"
    else extFallbackDevice path
  | _ => extFallbackDevice path

/-- Decimal numeral for `f"-{i}"`, via fuel-bounded structural recursion
(fuel `n + 1` always suffices since `n / 10 < n`). -/
def natToStrAux : Nat → Nat → List Char
  | 0, _ => []
  | f + 1, n => if n = 0 then [] else natToStrAux f (n / 10) ++ [digitChar (n % 10)]

def natToStr (n : Nat) : String := if n = 0 then "0" else ⟨natToStrAux (n + 1) n⟩

def utCand (base extLower : String) (i : Nat) : String :=
  base ++ "-" ++ natToStr i ++ extLower

/-- The `while True` probe loop of `unique_target`, with fuel; fuel
`used.length + 1` is proven sufficient below. -/
def utAux (used : List String) (base extLower : String) : Nat → Nat → String
  | 0, _ => ""
  | f + 1, i =>
    let c := utCand base extLower i
    if c ∈ used then utAux used base extLower f (i + 1) else c

/-- `unique_target`: `used` is the set of names currently existing in the
directory (what `os.path.exists` consults). -/
def unique_target (used : List String) (base e : String) : String :=
  let el := strLower e
  let t := base ++ el
  if t ∈ used then utAux used base el (used.length + 1) 1 else t

/-- `dt_utc = run_ffprobe_datetime(src)` with the mtime fallback. -/
def resolveTimestamp (probeOut : Option FfprobeData) (mtimeVal : PyDatetime) :
    PyDatetime :=
  match run_ffprobe_datetime probeOut with
  | some dt => dt
  | none => mtimeVal

/-- Per-file outcome of the main loop.  `plan` carries a ghost snapshot of
the directory contents that `unique_target` consulted. -/
inductive RunEv where
  | notMedia (name : String)
  | already (name : String)
  | sameName (name : String)
  | plan (src dst : String) (fsSnap : List String)
deriving DecidableEq, Repr

/-- The external world of one run: exiftool output, ffprobe output, and
mtime (as the UTC civil reading `datetime.fromtimestamp(ts, tz=utc)`
produces) for each path. -/
structure Oracles where
  exif : String → Option (List ExifEntry)
  probe : String → Option FfprobeData
  mtime : String → PyDatetime

/-- The candidate base name `f"{stamp}-{prefix}"` computed for one file:
device prefix from metadata (or extension), timestamp from ffprobe (or
mtime), formatted in Pacific time. -/
def plannedBase (o : Oracles) (ipfx apfx name : String) : String :=
  pacific_stamp (resolveTimestamp (o.probe name) (o.mtime name)) ++ "-" ++
    (if detect_device_from_metadata (o.exif name) name = "iphone" then ipfx else apfx)

/-- One iteration of the `for name in sorted(os.listdir(dirpath))` loop
(regular files only; non-file entries are outside the model), returning the
event and the updated directory contents. -/
def processName (o : Oracles) (ipfx apfx : String) (dry : Bool)
    (st : List String) (name : String) : RunEv × List String :=
  let eLow := strLower (splitext name).2
  if (FILE_EXTS.lookup eLow).isNone then (.notMedia name, st)
  else if is_already_renamed name then (.already name, st)
  else
    let dst := unique_target st (plannedBase o ipfx apfx name) eLow
    if name = dst then (.sameName name, st)
    else (.plan name dst st, if dry then st else dst :: st.erase name)

def runAux (o : Oracles) (ipfx apfx : String) (dry : Bool) :
    List String → List String → List RunEv × List String
  | st, [] => ([], st)
  | st, n :: ns =>
    let p := processName o ipfx apfx dry st n
    let rest := runAux o ipfx apfx dry p.2 ns
    (p.1 :: rest.1, rest.2)

/-- The whole `main` loop over the (sorted, distinct) directory listing;
the directory initially contains exactly the listed files. -/
def mainRun (o : Oracles) (ipfx apfx : String) (dry : Bool)
    (names : List String) : List RunEv × List String :=
  runAux o ipfx apfx dry names names

def planDst : RunEv → Option String
  | .plan _ d _ => some d
  | _ => none

/-! ## Spec-side definitions (written from the claims' words, for
refinement comparisons) -/

/-- Case-insensitive (ASCII) match of a candidate against a pattern
literal. -/
def ciMatchB : List Char → List Char → Bool
  | [], [] => true
  | p :: ps, c :: cs => (c.toLower == p.toLower) && ciMatchB ps cs
  | _, _ => false

/-- The canonical pattern exactly as claim C1 words it: eight digits,
hyphen, six digits, hyphen, a device token `iphone`/`android`
(case-insensitive), a dot, and one of the recognized extensions
(case-insensitive) — nothing after. -/
def canonicalName (s : String) : Prop :=
  ∃ a b dv x,
    s.data = a ++ '-' :: (b ++ '-' :: (dv ++ '.' :: x)) ∧
    a.length = 8 ∧ (∀ c ∈ a, c.isDigit = true) ∧
    b.length = 6 ∧ (∀ c ∈ b, c.isDigit = true) ∧
    (ciMatchB iphoneLit dv = true ∨ ciMatchB androidLit dv = true) ∧
    (∃ e ∈ extLits, ciMatchB e x = true)

/-- The candidate-parsing algorithm exactly as claim C3 words it: normalize
a trailing "Z" (only) to "+00:00", replace spaces by "T", general ISO parse,
then the two strptime patterns — with no whitespace stripping. -/
def claimParse (s : String) : Option PyDatetime :=
  let s1 := if endsWithZ s then ⟨s.data.dropLast ++ "+00:00".data⟩ else s
  let s2 := replaceChar ' ' "T" s1
  match pyFromisoformat s2 with
  | some dt => some (toUtc dt)
  | none =>
    match strptimeYmdHMS s2 with
    | some dt => some (setUtc dt)
    | none =>
      match strptimeYmdHMSf s2 with
      | some dt => some (setUtc dt)
      | none => none

/-- The device-classification rules exactly as claim C4 words them (all
field comparisons case-insensitive, which is how the code lower-cases every
field before comparing). -/
def claimClassifier (exifOut : Option (List ExifEntry)) (path : String) : String :=
  match exifOut with
  | some (meta :: _) =>
    if strLower (meta.make.getD "") = "apple" ∨
        containsSub "iphone".data (strLower (meta.model.getD "")).data then "iphone"
    else if meta.androidMake.getD "" ≠ "" ∨ meta.androidModel.getD "" ≠ "" ∨
        strLower (meta.make.getD "") = "google" ∨
        containsSub "pixel".data (strLower (meta.model.getD "")).data then "android"
    else extFallbackDevice path
  | _ => extFallbackDevice path

/-! ## Characterization of the regex matcher -/

theorem takeDigits_iff : ∀ (n : Nat) (l r : List Char),
    takeDigits n l = some r ↔
      ∃ a, l = a ++ r ∧ a.length = n ∧ ∀ c ∈ a, c.isDigit = true := by
  intro n
  induction n with
  | zero =>
    intro l r
    simp only [takeDigits, Option.some.injEq]
    constructor
    · rintro rfl; exact ⟨[], rfl, rfl, by simp⟩
    · rintro ⟨a, h1, h2, -⟩
      rw [List.length_eq_zero] at h2; subst h2; simpa using h1
  | succ n ih =>
    intro l r
    cases l with
    | nil =>
      simp only [takeDigits]
      constructor
      · intro h; cases h
      · rintro ⟨a, h1, h2, -⟩
        cases a with
        | nil => simp at h2
        | cons a0 a' => cases h1
    | cons c l' =>
      simp only [takeDigits]
      by_cases hc : c.isDigit
      · rw [if_pos hc, ih]
        constructor
        · rintro ⟨a, rfl, h2, h3⟩
          refine ⟨c :: a, rfl, by simp [h2], ?_⟩
          intro x hx
          rcases List.mem_cons.1 hx with rfl | hm
          · exact hc
          · exact h3 _ hm
        · rintro ⟨a, h1, h2, h3⟩
          cases a with
          | nil => simp at h2
          | cons a0 a' =>
            obtain ⟨rfl, rfl⟩ : c = a0 ∧ l' = a' ++ r := by
              constructor <;> [exact (List.cons.injEq ..).mp h1 |>.1;
                exact (List.cons.injEq ..).mp h1 |>.2]
            exact ⟨a', rfl, by simpa using h2, fun x hx => h3 _ (List.mem_cons_of_mem _ hx)⟩
      · rw [if_neg hc]
        constructor
        · intro h; cases h
        · rintro ⟨a, h1, h2, h3⟩
          cases a with
          | nil => simp at h2
          | cons a0 a' =>
            obtain rfl : c = a0 := ((List.cons.injEq ..).mp h1).1
            exact absurd (h3 c (List.mem_cons_self ..)) hc

theorem dropCI_iff : ∀ (p l r : List Char),
    dropCI p l = some r ↔ ∃ q, l = q ++ r ∧ ciMatchB p q = true := by
  intro p
  induction p with
  | nil =>
    intro l r
    simp only [dropCI, Option.some.injEq]
    constructor
    · rintro rfl; exact ⟨[], rfl, rfl⟩
    · rintro ⟨q, h1, h2⟩
      cases q with
      | nil => simpa using h1
      | cons q0 q' => simp [ciMatchB] at h2
  | cons p0 ps ih =>
    intro l r
    cases l with
    | nil =>
      simp only [dropCI]
      constructor
      · intro h; cases h
      · rintro ⟨q, h1, h2⟩
        cases q with
        | nil => simp [ciMatchB] at h2
        | cons q0 q' => cases h1
    | cons c l' =>
      simp only [dropCI]
      by_cases hc : c.toLower = p0.toLower
      · rw [if_pos hc, ih]
        constructor
        · rintro ⟨q, rfl, h2⟩
          exact ⟨c :: q, rfl, by simp [ciMatchB, hc, h2]⟩
        · rintro ⟨q, h1, h2⟩
          cases q with
          | nil => simp [ciMatchB] at h2
          | cons q0 q' =>
            obtain rfl : c = q0 := ((List.cons.injEq ..).mp h1).1
            obtain rfl : l' = q' ++ r := ((List.cons.injEq ..).mp h1).2
            simp only [ciMatchB, Bool.and_eq_true] at h2
            exact ⟨q', rfl, h2.2⟩
      · rw [if_neg hc]
        constructor
        · intro h; cases h
        · rintro ⟨q, h1, h2⟩
          cases q with
          | nil => simp [ciMatchB] at h2
          | cons q0 q' =>
            obtain rfl : c = q0 := ((List.cons.injEq ..).mp h1).1
            simp only [ciMatchB, Bool.and_eq_true, beq_iff_eq] at h2
            exact absurd h2.1 hc

theorem extEnd_iff (fin : List Char → Bool) (l : List Char) :
    extEnd fin l = true ↔
      ∃ e ∈ extLits, ∃ x r, l = x ++ r ∧ ciMatchB e x = true ∧ fin r = true := by
  simp only [extEnd, List.any_eq_true]
  constructor
  · rintro ⟨e, he, h⟩
    cases hd : dropCI e l with
    | none => rw [hd] at h; cases h
    | some r =>
      rw [hd] at h
      obtain ⟨x, rfl, hx⟩ := (dropCI_iff e l r).1 hd
      exact ⟨e, he, x, r, rfl, hx, h⟩
  · rintro ⟨e, he, x, r, rfl, hx, hf⟩
    refine ⟨e, he, ?_⟩
    rw [(dropCI_iff e (x ++ r) r).2 ⟨x, rfl, hx⟩]
    exact hf

theorem afterDev_iff (fin : List Char → Bool) (l : List Char) :
    afterDev fin l = true ↔ ∃ r, l = '.' :: r ∧ extEnd fin r = true := by
  cases l with
  | nil => simp [afterDev]
  | cons c t =>
    by_cases hc : c = '.'
    · subst hc
      simp [afterDev]
    · constructor
      · intro h
        exfalso
        unfold afterDev at h
        split at h
        · next heq => exact hc (by cases heq; rfl)
        · cases h
      · rintro ⟨r, h1, -⟩
        exact absurd ((List.cons.injEq ..).mp h1).1 hc

theorem devMatch_iff (fin : List Char → Bool) (l : List Char) :
    devMatch fin l = true ↔
      ∃ dv r, l = dv ++ r ∧
        (ciMatchB iphoneLit dv = true ∨ ciMatchB androidLit dv = true) ∧
        afterDev fin r = true := by
  simp only [devMatch, List.any_eq_true]
  constructor
  · rintro ⟨dvp, hdvp, h⟩
    cases hd : dropCI dvp l with
    | none => rw [hd] at h; cases h
    | some r =>
      rw [hd] at h
      obtain ⟨q, rfl, hq⟩ := (dropCI_iff dvp l r).1 hd
      refine ⟨q, r, rfl, ?_, h⟩
      rcases List.mem_cons.1 hdvp with rfl | hdvp'
      · exact Or.inl hq
      · rcases List.mem_cons.1 hdvp' with rfl | hx
        · exact Or.inr hq
        · cases hx
  · rintro ⟨dv, r, rfl, hdv, hr⟩
    rcases hdv with h | h
    · refine ⟨iphoneLit, by simp, ?_⟩
      rw [(dropCI_iff iphoneLit (dv ++ r) r).2 ⟨dv, rfl, h⟩]
      exact hr
    · refine ⟨androidLit, by simp, ?_⟩
      rw [(dropCI_iff androidLit (dv ++ r) r).2 ⟨dv, rfl, h⟩]
      exact hr

theorem matchCanon_iff (fin : List Char → Bool) (l : List Char) :
    matchCanon fin l = true ↔
      ∃ a b dv x r,
        l = a ++ '-' :: (b ++ '-' :: (dv ++ '.' :: (x ++ r))) ∧
        a.length = 8 ∧ (∀ c ∈ a, c.isDigit = true) ∧
        b.length = 6 ∧ (∀ c ∈ b, c.isDigit = true) ∧
        (ciMatchB iphoneLit dv = true ∨ ciMatchB androidLit dv = true) ∧
        (∃ e ∈ extLits, ciMatchB e x = true) ∧ fin r = true := by
  constructor
  · intro h
    unfold matchCanon at h
    split at h
    case h_1 r1 heq =>
      split at h
      case h_1 r2 heq2 =>
        obtain ⟨a, ha, ha8, had⟩ := (takeDigits_iff 8 l ('-' :: r1)).1 heq
        obtain ⟨b, hb, hb6, hbd⟩ := (takeDigits_iff 6 r1 ('-' :: r2)).1 heq2
        obtain ⟨dv, r', rfl, hdv, hr'⟩ := (devMatch_iff fin r2).1 h
        obtain ⟨r'', rfl, hext⟩ := (afterDev_iff fin r').1 hr'
        obtain ⟨e, he, x, r, rfl, hx, hfin⟩ := (extEnd_iff fin r'').1 hext
        subst hb
        subst ha
        exact ⟨a, b, dv, x, r, rfl, ha8, had, hb6, hbd, hdv, ⟨e, he, hx⟩, hfin⟩
      case h_2 hne => cases h
    case h_2 hne => cases h
  · rintro ⟨a, b, dv, x, r, rfl, ha8, had, hb6, hbd, hdv, ⟨e, he, hx⟩, hfin⟩
    have h8 : takeDigits 8 (a ++ '-' :: (b ++ '-' :: (dv ++ '.' :: (x ++ r)))) =
        some ('-' :: (b ++ '-' :: (dv ++ '.' :: (x ++ r)))) :=
      (takeDigits_iff 8 _ _).2 ⟨a, rfl, ha8, had⟩
    have h6 : takeDigits 6 (b ++ '-' :: (dv ++ '.' :: (x ++ r))) =
        some ('-' :: (dv ++ '.' :: (x ++ r))) :=
      (takeDigits_iff 6 _ _).2 ⟨b, rfl, hb6, hbd⟩
    have hdm : devMatch fin (dv ++ '.' :: (x ++ r)) = true := by
      rw [devMatch_iff]
      refine ⟨dv, '.' :: (x ++ r), rfl, hdv, ?_⟩
      rw [afterDev_iff]
      exact ⟨x ++ r, rfl, (extEnd_iff fin _).2 ⟨e, he, x, r, rfl, hx, hfin⟩⟩
    have step1 : matchCanon fin (a ++ '-' :: (b ++ '-' :: (dv ++ '.' :: (x ++ r)))) =
        (match takeDigits 6 (b ++ '-' :: (dv ++ '.' :: (x ++ r))) with
         | some ('-' :: r2) => devMatch fin r2
         | _ => false) := by
      unfold matchCanon; rw [h8]; rfl
    rw [step1, h6]
    exact hdm

theorem canonicalName_iff_matchCanon (s : String) :
    canonicalName s ↔ matchCanon (fun l => l.isEmpty) s.data = true := by
  rw [matchCanon_iff]
  constructor
  · rintro ⟨a, b, dv, x, h, ha8, had, hb6, hbd, hdv, hext⟩
    exact ⟨a, b, dv, x, [], by simpa using h, ha8, had, hb6, hbd, hdv, hext, rfl⟩
  · rintro ⟨a, b, dv, x, r, h, ha8, had, hb6, hbd, hdv, hext, hfin⟩
    obtain rfl : r = [] := by simpa using hfin
    exact ⟨a, b, dv, x, by simpa using h, ha8, had, hb6, hbd, hdv, hext⟩

theorem strMk_append (l1 l2 : List Char) :
    (⟨l1⟩ : String) ++ (⟨l2⟩ : String) = ⟨l1 ++ l2⟩ := rfl

theorem strData_append (a b : String) : (a ++ b).data = a.data ++ b.data := rfl

/-- Claim C1: the already-renamed check is claimed to return true exactly on
the canonical pattern; but the underlying regex uses `$`, which in Python
also matches just before a single trailing newline, so a canonical name
followed by `"\n"` is (incorrectly, per the claim) accepted. -/
theorem c1_counterexample :
    is_already_renamed "20250101-123456-iphone.mov\n" = true ∧
      ¬ canonicalName "20250101-123456-iphone.mov\n" := by
  constructor
  · decide
  · rw [canonicalName_iff_matchCanon]
    decide

/-- Claim C1, amended: `is_already_renamed` returns true iff the filename
matches the canonical pattern, or the canonical pattern followed by a single
trailing newline (Python's `$` matches before a final newline). -/
theorem c1_amended (s : String) :
    is_already_renamed s = true ↔
      (canonicalName s ∨ ∃ t : String, s = t ++ "\n" ∧ canonicalName t) := by
  unfold is_already_renamed
  rw [matchCanon_iff]
  constructor
  · rintro ⟨a, b, dv, x, r, h, ha8, had, hb6, hbd, hdv, hext, hfin⟩
    have hr : r = [] ∨ r = ['\n'] := by
      rcases r with _ | ⟨c, r'⟩
      · exact Or.inl rfl
      · right
        simp only [pyLineEnd, List.isEmpty_cons, Bool.false_or, beq_iff_eq] at hfin
        exact hfin
    rcases hr with rfl | rfl
    · left
      exact ⟨a, b, dv, x, by simpa using h, ha8, had, hb6, hbd, hdv, hext⟩
    · right
      refine ⟨⟨a ++ '-' :: (b ++ '-' :: (dv ++ '.' :: x))⟩, ?_, ?_⟩
      · cases s with
        | mk d =>
          rw [show (⟨a ++ '-' :: (b ++ '-' :: (dv ++ '.' :: x))⟩ : String) ++ "\n" =
              ⟨(a ++ '-' :: (b ++ '-' :: (dv ++ '.' :: x))) ++ ['\n']⟩ from rfl]
          exact congrArg String.mk (by simpa [List.append_assoc] using h)
      · exact ⟨a, b, dv, x, rfl, ha8, had, hb6, hbd, hdv, hext⟩
  · rintro (⟨a, b, dv, x, h, ha8, had, hb6, hbd, hdv, hext⟩ |
      ⟨t, rfl, a, b, dv, x, h, ha8, had, hb6, hbd, hdv, hext⟩)
    · exact ⟨a, b, dv, x, [], by simpa using h, ha8, had, hb6, hbd, hdv, hext, rfl⟩
    · refine ⟨a, b, dv, x, ['\n'], ?_, ha8, had, hb6, hbd, hdv, hext, rfl⟩
      rw [strData_append, h]
      simp [List.append_assoc]

theorem ciMatchB_no_dot : ∀ (p q : List Char), ciMatchB p q = true →
    (∀ c ∈ p, c.toLower ≠ '.') → '.' ∉ q := by
  intro p
  induction p with
  | nil =>
    intro q h _
    cases q with
    | nil => simp
    | cons c q' => simp [ciMatchB] at h
  | cons p0 ps ih =>
    intro q h hp
    cases q with
    | nil => simp [ciMatchB] at h
    | cons c q' =>
      simp only [ciMatchB, Bool.and_eq_true, beq_iff_eq] at h
      intro hm
      rcases List.mem_cons.1 hm with rfl | hm'
      · exact hp p0 (List.mem_cons_self ..) (by rw [← h.1]; rfl)
      · exact ih q' h.2 (fun c hc => hp c (List.mem_cons_of_mem _ hc)) hm'

theorem eq_of_append_dot_eq : ∀ (a x b y : List Char),
    a ++ '.' :: x = b ++ '.' :: y → '.' ∉ a → '.' ∉ b → a = b ∧ x = y := by
  intro a
  induction a with
  | nil =>
    intro x b y h _ hb
    cases b with
    | nil => simpa using h
    | cons c b' =>
      exfalso
      have hc : '.' = c := ((List.cons.injEq ..).mp h).1
      exact hb (hc ▸ List.mem_cons_self ..)
  | cons c a' ih =>
    intro x b y h ha hb
    cases b with
    | nil =>
      exfalso
      have hc : c = '.' := ((List.cons.injEq ..).mp h).1
      exact ha (hc ▸ List.mem_cons_self ..)
    | cons c' b' =>
      obtain ⟨rfl, htail⟩ := (List.cons.injEq ..).mp h
      obtain ⟨hab, hxy⟩ := ih x b' y htail
        (fun hm => ha (List.mem_cons_of_mem _ hm))
        (fun hm => hb (List.mem_cons_of_mem _ hm))
      exact ⟨by rw [hab], hxy⟩

theorem extLits_no_dot : ∀ e ∈ extLits, ∀ c ∈ e, c.toLower ≠ '.' := by decide

theorem devLits_no_dot :
    (∀ c ∈ iphoneLit, c.toLower ≠ '.') ∧ (∀ c ∈ androidLit, c.toLower ≠ '.') := by decide

theorem pyLineEnd_cases (r : List Char) (h : pyLineEnd r = true) : r = [] ∨ r = ['\n'] := by
  rcases r with _ | ⟨c, r'⟩
  · exact Or.inl rfl
  · right
    simp only [pyLineEnd, List.isEmpty_cons, Bool.false_or, beq_iff_eq] at h
    exact h

theorem notRecognizedCore (a b : List Char) (p : String) (eb : List Char)
    (ha8 : a.length = 8) (hb6 : b.length = 6) (heb : '.' ∉ eb)
    (hip : ciMatchB iphoneLit p.data = false)
    (han : ciMatchB androidLit p.data = false) :
    matchCanon pyLineEnd (a ++ '-' :: (b ++ '-' :: (p.data ++ '.' :: eb))) = false := by
  cases hM : matchCanon pyLineEnd (a ++ '-' :: (b ++ '-' :: (p.data ++ '.' :: eb))) with
  | false => rfl
  | true =>
    exfalso
    rw [matchCanon_iff] at hM
    obtain ⟨a', b', dv, x, r, heq, ha'8, -, hb'6, -, hdv, hext, hfin⟩ := hM
    obtain ⟨-, h2⟩ := List.append_inj heq (ha8.trans ha'8.symm)
    have h3 := ((List.cons.injEq ..).mp h2).2
    obtain ⟨-, h4⟩ := List.append_inj h3 (hb6.trans hb'6.symm)
    have hpe : p.data ++ '.' :: eb = dv ++ '.' :: (x ++ r) :=
      ((List.cons.injEq ..).mp h4).2
    have hdvDot : '.' ∉ dv := by
      rcases hdv with h | h
      · exact ciMatchB_no_dot _ _ h devLits_no_dot.1
      · exact ciMatchB_no_dot _ _ h devLits_no_dot.2
    have hxDot : '.' ∉ x := by
      obtain ⟨e', he', hx⟩ := hext
      exact ciMatchB_no_dot _ _ hx (extLits_no_dot e' he')
    have hrDot : '.' ∉ r := by
      rcases pyLineEnd_cases r hfin with rfl | rfl <;> simp
    have hcnt := congrArg (List.count '.') hpe
    simp only [List.count_append, List.count_cons] at hcnt
    rw [List.count_eq_zero.2 hdvDot, List.count_eq_zero.2 hxDot,
      List.count_eq_zero.2 hrDot, List.count_eq_zero.2 heb] at hcnt
    have hpDot : '.' ∉ p.data := by
      rw [← List.count_eq_zero (a := '.')]
      omega
    obtain ⟨hp_dv, -⟩ := eq_of_append_dot_eq _ _ _ _ hpe hpDot hdvDot
    rcases hdv with h | h
    · rw [← hp_dv] at h; rw [h] at hip; cases hip
    · rw [← hp_dv] at h; rw [h] at han; cases han

/-- Claim C8: claims a file renamed with any custom prefix other than the
two tokens is never recognized; but the regex is case-insensitive, so the
custom prefix `"IPHONE"` (a different string than both tokens) IS
recognized. -/
theorem c8_counterexample :
    (("IPHONE" : String) ≠ "iphone" ∧ ("IPHONE" : String) ≠ "android") ∧
      is_already_renamed "20250101-123456-IPHONE.mov" = true := by
  refine ⟨⟨?_, ?_⟩, ?_⟩ <;> decide

/-- Claim C8, amended: the detector hard-codes `iphone`/`android`, so a file
renamed with a custom prefix that is not a case-insensitive variant of
either token is never recognized as already renamed; such a file is
reprocessed and, when it collides with itself, renamed again with `-1`. -/
theorem c8_amended :
    (∀ (a b : List Char) (p e : String),
        a.length = 8 → (∀ c ∈ a, c.isDigit = true) →
        b.length = 6 → (∀ c ∈ b, c.isDigit = true) →
        e ∈ [".mov", ".mp4", ".heic", ".jpg", ".jpeg"] →
        ciMatchB iphoneLit p.data = false → ciMatchB androidLit p.data = false →
        is_already_renamed ⟨a ++ '-' :: (b ++ '-' :: (p.data ++ e.data))⟩ = false) ∧
    (mainRun
        ⟨fun _ => some [⟨some "Apple", none, none, none⟩],
         fun _ => some ⟨some "2025-01-01T12:34:56-08:00", []⟩,
         fun _ => ⟨2025, 1, 1, 0, 0, 0, 0, some 0⟩⟩
        "myphone" "android" false ["20250101-123456-myphone.mov"]).1 =
      [RunEv.plan "20250101-123456-myphone.mov" "20250101-123456-myphone-1.mov"
        ["20250101-123456-myphone.mov"]] := by
  constructor
  · intro a b p e ha8 _ hb6 _ he hip han
    simp only [List.mem_cons, List.not_mem_nil, or_false] at he
    rcases he with rfl | rfl | rfl | rfl | rfl
    · exact notRecognizedCore a b p ['m', 'o', 'v'] ha8 hb6 (by decide) hip han
    · exact notRecognizedCore a b p ['m', 'p', '4'] ha8 hb6 (by decide) hip han
    · exact notRecognizedCore a b p ['h', 'e', 'i', 'c'] ha8 hb6 (by decide) hip han
    · exact notRecognizedCore a b p ['j', 'p', 'g'] ha8 hb6 (by decide) hip han
    · exact notRecognizedCore a b p ['j', 'p', 'e', 'g'] ha8 hb6 (by decide) hip han
  · decide

theorem c8_amended_witness :
    ciMatchB iphoneLit "myphone".data = false ∧
      ciMatchB androidLit "myphone".data = false ∧
      is_already_renamed "20250101-123456-myphone.mov" = false := by
  refine ⟨by decide, by decide, ?_⟩
  exact c8_amended.1 ['2', '0', '2', '5', '0', '1', '0', '1'] ['1', '2', '3', '4', '5', '6']
    "myphone" ".mov" (by decide) (by decide) (by decide) (by decide) (by simp)
    (by decide) (by decide)

/-- Claim C4: the device classifier applies exactly the claimed rules in the
claimed order: Apple/iPhone first, then the Android checks, then the
extension fallback (`.mov`/`.heic` iphone, anything else android).
`claimClassifier` transcribes the claim's rules; every field comparison is
case-insensitive, realized by lower-casing the fields. -/
theorem c4_classifier_rules (exifOut : Option (List ExifEntry)) (path : String) :
    detect_device_from_metadata exifOut path = claimClassifier exifOut path := by
  cases exifOut with
  | none => rfl
  | some l =>
    cases l with
    | nil => rfl
    | cons meta rest =>
      show (let mk := strLower (meta.make.getD "")
            let md := strLower (meta.model.getD "")
            let amk := strLower (meta.androidMake.getD "")
            let amd := strLower (meta.androidModel.getD "")
            if mk = "apple" ∨ containsSub "iphone".data md.data then "iphone"
            else if amk ≠ "" ∨ amd ≠ "" ∨ mk = "google" ∨ containsSub "pixel".data md.data
              then "android"
            else extFallbackDevice path) =
          (if strLower (meta.make.getD "") = "apple" ∨
              containsSub "iphone".data (strLower (meta.model.getD "")).data then "iphone"
           else if meta.androidMake.getD "" ≠ "" ∨ meta.androidModel.getD "" ≠ "" ∨
              strLower (meta.make.getD "") = "google" ∨
              containsSub "pixel".data (strLower (meta.model.getD "")).data then "android"
           else extFallbackDevice path)
      simp only []
      by_cases h1 : strLower (meta.make.getD "") = "apple" ∨
          containsSub "iphone".data (strLower (meta.model.getD "")).data
      · rw [if_pos h1, if_pos h1]
      · rw [if_neg h1, if_neg h1]
        have hlowEq : ∀ s : String, strLower s = "" ↔ s = "" := by
          intro s
          cases s with
          | mk dl =>
            cases dl with
            | nil => exact ⟨fun _ => rfl, fun _ => rfl⟩
            | cons c t =>
              constructor
              · intro h
                exact absurd
                  (congrArg String.data h : List.map Char.toLower (c :: t) = ([] : List Char))
                  (by simp)
              · intro h
                exact absurd (congrArg String.data h : c :: t = ([] : List Char)) (by simp)
        have hlow : ∀ s : String, strLower s ≠ "" ↔ s ≠ "" :=
          fun s => not_congr (hlowEq s)
        by_cases h2 : meta.androidMake.getD "" ≠ "" ∨ meta.androidModel.getD "" ≠ "" ∨
            strLower (meta.make.getD "") = "google" ∨
            containsSub "pixel".data (strLower (meta.model.getD "")).data
        · rw [if_pos h2]
          have h2' : strLower (meta.androidMake.getD "") ≠ "" ∨
              strLower (meta.androidModel.getD "") ≠ "" ∨
              strLower (meta.make.getD "") = "google" ∨
              containsSub "pixel".data (strLower (meta.model.getD "")).data := by
            rcases h2 with h | h | h | h
            · exact Or.inl ((hlow _).2 h)
            · exact Or.inr (Or.inl ((hlow _).2 h))
            · exact Or.inr (Or.inr (Or.inl h))
            · exact Or.inr (Or.inr (Or.inr h))
          rw [if_pos h2']
        · rw [if_neg h2]
          have h2' : ¬ (strLower (meta.androidMake.getD "") ≠ "" ∨
              strLower (meta.androidModel.getD "") ≠ "" ∨
              strLower (meta.make.getD "") = "google" ∨
              containsSub "pixel".data (strLower (meta.model.getD "")).data) := by
            intro hc
            apply h2
            rcases hc with h | h | h | h
            · exact Or.inl ((hlow _).1 h)
            · exact Or.inr (Or.inl ((hlow _).1 h))
            · exact Or.inr (Or.inr (Or.inl h))
            · exact Or.inr (Or.inr (Or.inr h))
          rw [if_neg h2']

/-- Claim C6: every external-utility failure is modelled as `none` (or an
empty JSON list) and is mapped to the next fallback, never to an error:
device detection falls back to the extension heuristic, the prober yields
no timestamp, `resolveTimestamp` then uses the mtime, and a complete run
with both utilities failing still produces a normal rename plan (device
from extension, timestamp from mtime). -/
theorem c6_failure_fallbacks :
    (∀ path, detect_device_from_metadata none path = extFallbackDevice path) ∧
    (∀ path, detect_device_from_metadata (some []) path = extFallbackDevice path) ∧
    run_ffprobe_datetime none = none ∧
    (∀ mtimeVal, resolveTimestamp none mtimeVal = mtimeVal) ∧
    ((mainRun ⟨fun _ => none, fun _ => none, fun _ => ⟨2025, 3, 1, 10, 0, 0, 0, some 0⟩⟩
        "iphone" "android" false ["clip.mov"]).1 =
      [RunEv.plan "clip.mov" "20250301-020000-iphone.mov" ["clip.mov"]]) :=
  ⟨fun _ => rfl, fun _ => rfl, rfl, fun _ => rfl, by decide⟩

/-- Claim C7: for `clip.mov` with unreadable metadata and mtime
2025-03-01T10:00:00Z, the conversion to America/Los_Angeles uses the
standard offset −8h (March 1 is before the second Sunday of March, which
the model computes as March 9), and the dry run plans the name
`20250301-020000-iphone.mov`. -/
theorem c7_pacific_dry_run :
    inPacificDST ⟨2025, 3, 1, 10, 0, 0, 0, some 0⟩ = false ∧
    pacOffset ⟨2025, 3, 1, 10, 0, 0, 0, some 0⟩ = -28800 ∧
    secondSundayMarch 2025 = 9 ∧
    pacific_stamp ⟨2025, 3, 1, 10, 0, 0, 0, some 0⟩ = "20250301-020000" ∧
    ((mainRun ⟨fun _ => none, fun _ => none, fun _ => ⟨2025, 3, 1, 10, 0, 0, 0, some 0⟩⟩
        "iphone" "android" true ["clip.mov"]).1 =
      [RunEv.plan "clip.mov" "20250301-020000-iphone.mov" ["clip.mov"]]) := by
  refine ⟨by decide, by decide, by decide, by decide, by decide⟩

/-- Claim C3: claims each candidate is parsed by normalizing a trailing "Z"
and the space separator, then ISO parse, then two fallback patterns; the
code additionally strips surrounding whitespace first (and replaces every
"Z"/space, not one).  A candidate with a trailing space parses in the code
but not under the claimed algorithm. -/
theorem c3_counterexample :
    parse_iso_to_utc "2025-08-20T18:23:45 " =
      some ⟨2025, 8, 20, 18, 23, 45, 0, some 0⟩ ∧
    claimParse "2025-08-20T18:23:45 " = none := by
  exact ⟨by decide, by decide⟩

/-- Claim C3, amended: candidates are the container tag followed by the
stream tags in order; the first that parses wins; each candidate is parsed
by stripping surrounding whitespace, then (when it ends with "Z") replacing
every "Z" with "+00:00", replacing every space with "T", attempting the
general ISO-8601 parse, and on failure exactly the two patterns
%Y-%m-%dT%H:%M:%S and %Y-%m-%dT%H:%M:%S.%f; a parse with no timezone is
taken as UTC, one with an offset is converted to UTC. -/
theorem c3_amended :
    (∀ d : FfprobeData,
        run_ffprobe_datetime (some d) =
          firstParse ((match d.fmtCreation with | some t => [t] | none => []) ++
            d.streamCreations.filterMap id)) ∧
    (∀ t ts, firstParse (t :: ts) =
        match parse_iso_to_utc t with
        | some dt => some dt
        | none => firstParse ts) ∧
    (∀ s, parse_iso_to_utc s =
        (let s2 := replaceChar ' ' "T"
          (if endsWithZ (pyStrip s) then replaceChar 'Z' "+00:00" (pyStrip s)
           else pyStrip s)
         match pyFromisoformat s2 with
         | some dt => some (toUtc dt)
         | none =>
           match strptimeYmdHMS s2 with
           | some dt => some (setUtc dt)
           | none =>
             match strptimeYmdHMSf s2 with
             | some dt => some (setUtc dt)
             | none => none)) ∧
    (∀ y mo d h mi s us, toUtc ⟨y, mo, d, h, mi, s, us, none⟩ =
        ⟨y, mo, d, h, mi, s, us, some 0⟩) ∧
    (∀ y mo d h mi s us off, toUtc ⟨y, mo, d, h, mi, s, us, some off⟩ =
        setUtc (shiftCivil ⟨y, mo, d, h, mi, s, us, some off⟩ (-off))) :=
  ⟨fun _ => rfl, fun _ _ => rfl, fun _ => rfl, fun _ _ _ _ _ _ _ => rfl,
    fun _ _ _ _ _ _ _ _ => rfl⟩

/-! ## `unique_target` machinery -/

def decVal (l : List Char) : Nat := l.foldl (fun a c => a * 10 + digitVal c) 0

theorem natToStrAux_zero (f : Nat) : natToStrAux f 0 = [] := by
  cases f <;> simp [natToStrAux]

theorem digitVal_digitChar (n : Nat) : digitVal (digitChar n) = n % 10 := by
  have h : n % 10 < 10 := Nat.mod_lt _ (by omega)
  unfold digitChar digitVal
  interval_cases hm : n % 10 <;> rfl

theorem decVal_natToStrAux : ∀ (f n : Nat), n ≤ f → decVal (natToStrAux f n) = n := by
  intro f
  induction f with
  | zero =>
    intro n hn
    obtain rfl : n = 0 := by omega
    rfl
  | succ f ih =>
    intro n hn
    by_cases h0 : n = 0
    · subst h0; rfl
    · have hstep : natToStrAux (f + 1) n = natToStrAux f (n / 10) ++ [digitChar (n % 10)] := by
        simp [natToStrAux, h0]
      have hdiv : n / 10 ≤ f := by omega
      rw [hstep]
      unfold decVal
      rw [List.foldl_append]
      have := ih (n / 10) hdiv
      unfold decVal at this
      rw [this]
      simp only [List.foldl_cons, List.foldl_nil]
      rw [digitVal_digitChar]
      omega

theorem natToStr_inj : Function.Injective natToStr := by
  intro a b h
  unfold natToStr at h
  by_cases ha : a = 0 <;> by_cases hb : b = 0
  · omega
  · exfalso
    rw [if_pos ha, if_neg hb] at h
    have hd := congrArg String.data h
    have h1 : decVal (("0" : String).data) = 0 := rfl
    have h2 : decVal (natToStrAux (b + 1) b) = b := decVal_natToStrAux _ _ (by omega)
    rw [hd] at h1
    exact hb (by rw [← h2, h1])
  · exfalso
    rw [if_neg ha, if_pos hb] at h
    have hd := congrArg String.data h
    have h1 : decVal (("0" : String).data) = 0 := rfl
    have h2 : decVal (natToStrAux (a + 1) a) = a := decVal_natToStrAux _ _ (by omega)
    rw [← hd] at h1
    exact ha (by rw [← h2, h1])
  · rw [if_neg ha, if_neg hb] at h
    have hd := congrArg String.data h
    have h1 : decVal (natToStrAux (a + 1) a) = a := decVal_natToStrAux _ _ (by omega)
    have h2 : decVal (natToStrAux (b + 1) b) = b := decVal_natToStrAux _ _ (by omega)
    rw [← h1, ← h2]
    exact congrArg decVal hd

theorem strExt {s t : String} (h : s.data = t.data) : s = t := by
  cases s with
  | mk d1 =>
    cases t with
    | mk d2 => exact congrArg String.mk h

theorem utCand_inj (base el : String) : Function.Injective (utCand base el) := by
  intro i j h
  apply natToStr_inj
  have hd := congrArg String.data h
  simp only [strData_append] at hd
  exact strExt (List.append_cancel_left (List.append_cancel_right hd))

theorem utCand_free_exists (used : List String) (base el : String) :
    ∃ j, 1 ≤ j ∧ j < used.length + 2 ∧ utCand base el j ∉ used := by
  by_contra hc
  push_neg at hc
  have hinj : Function.Injective (fun j : Nat => utCand base el (j + 1)) := by
    intro x y hxy
    have := utCand_inj base el hxy
    omega
  have hsub : (Finset.range (used.length + 1)).image (fun j => utCand base el (j + 1)) ⊆
      used.toFinset := by
    intro x hx
    simp only [Finset.mem_image, Finset.mem_range] at hx
    obtain ⟨j, hj, rfl⟩ := hx
    rw [List.mem_toFinset]
    exact hc (j + 1) (by omega) (by omega)
  have hcard := Finset.card_le_card hsub
  rw [Finset.card_image_of_injective _ hinj, Finset.card_range] at hcard
  have := used.toFinset_card_le
  omega

theorem utAux_spec (used : List String) (base el : String) :
    ∀ (fuel i : Nat),
      (∃ j, i ≤ j ∧ j < i + fuel ∧ utCand base el j ∉ used) →
      ∃ j, i ≤ j ∧ utAux used base el fuel i = utCand base el j ∧
        utCand base el j ∉ used ∧ ∀ k, i ≤ k → k < j → utCand base el k ∈ used := by
  intro fuel
  induction fuel with
  | zero =>
    rintro i ⟨j, hj1, hj2, -⟩
    omega
  | succ f ih =>
    intro i hex
    by_cases hc : utCand base el i ∈ used
    · have hstep : utAux used base el (f + 1) i = utAux used base el f (i + 1) := by
        simp [utAux, hc]
      obtain ⟨j, hj1, hj2, hj3⟩ := hex
      have hji : j ≠ i := fun he => hj3 (by rw [he]; exact hc)
      obtain ⟨j', hj'1, hj'2, hj'3, hj'4⟩ := ih (i + 1) ⟨j, by omega, by omega, hj3⟩
      refine ⟨j', by omega, by rw [hstep]; exact hj'2, hj'3, ?_⟩
      intro k hk1 hk2
      by_cases hki : k = i
      · exact hki ▸ hc
      · exact hj'4 k (by omega) hk2
    · refine ⟨i, le_refl i, ?_, hc, fun k hk1 hk2 => by omega⟩
      simp [utAux, hc]

theorem unique_target_spec (used : List String) (base e : String) :
    (base ++ strLower e ∉ used → unique_target used base e = base ++ strLower e) ∧
    (base ++ strLower e ∈ used →
      ∃ i, 1 ≤ i ∧ unique_target used base e = utCand base (strLower e) i ∧
        utCand base (strLower e) i ∉ used ∧
        ∀ k, 1 ≤ k → k < i → utCand base (strLower e) k ∈ used) := by
  constructor
  · intro h
    simp [unique_target, h]
  · intro h
    obtain ⟨j, hj1, hj2, hj3⟩ := utCand_free_exists used base (strLower e)
    obtain ⟨i, hi1, hi2, hi3, hi4⟩ :=
      utAux_spec used base (strLower e) (used.length + 1) 1 ⟨j, hj1, by omega, hj3⟩
    refine ⟨i, hi1, ?_, hi3, hi4⟩
    rw [show unique_target used base e = utAux used base (strLower e) (used.length + 1) 1 by
      simp [unique_target, h]]
    exact hi2

theorem unique_target_not_mem (used : List String) (base e : String) :
    unique_target used base e ∉ used := by
  by_cases h : base ++ strLower e ∈ used
  · obtain ⟨i, -, hi2, hi3, -⟩ := (unique_target_spec used base e).2 h
    rw [hi2]
    exact hi3
  · rw [(unique_target_spec used base e).1 h]
    exact h

/-- Claim C5: `unique_target` returns `base.ext` when unused, else
`base-i.ext` for the least `i ≥ 1` whose candidate is unused (probing
upward from 1); consequently, in a (non-dry) run, the second of two files
resolving to the same base gets `-1` and the third gets `-2`. -/
theorem c5_collision_resolver :
    (∀ (used : List String) (base e : String),
        (base ++ strLower e ∉ used → unique_target used base e = base ++ strLower e) ∧
        (base ++ strLower e ∈ used →
          ∃ i, 1 ≤ i ∧ unique_target used base e = utCand base (strLower e) i ∧
            utCand base (strLower e) i ∉ used ∧
            ∀ k, 1 ≤ k → k < i → utCand base (strLower e) k ∈ used)) ∧
    ((mainRun ⟨fun _ => none, fun _ => none, fun _ => ⟨2025, 3, 1, 10, 0, 0, 0, some 0⟩⟩
        "iphone" "android" false ["a.mov", "b.mov", "c.mov"]).1 =
      [RunEv.plan "a.mov" "20250301-020000-iphone.mov" ["a.mov", "b.mov", "c.mov"],
       RunEv.plan "b.mov" "20250301-020000-iphone-1.mov"
         ["20250301-020000-iphone.mov", "b.mov", "c.mov"],
       RunEv.plan "c.mov" "20250301-020000-iphone-2.mov"
         ["20250301-020000-iphone-1.mov", "20250301-020000-iphone.mov", "c.mov"]]) :=
  ⟨unique_target_spec, by decide⟩

theorem c5_collision_witness :
    ("b" ++ strLower ".mov" : String) ∈ ["b.mov"] ∧
      unique_target ["b.mov"] "b" ".mov" = "b-1.mov" := by
  refine ⟨by decide, ?_⟩
  obtain ⟨i, hi1, hi2, hi3, hi4⟩ :=
    (c5_collision_resolver.1 ["b.mov"] "b" ".mov").2 (by decide)
  have hieq : i = 1 := by
    by_contra hne
    have h1 : utCand "b" (strLower ".mov") 1 ∈ ["b.mov"] := hi4 1 (le_refl 1) (by omega)
    exact absurd h1 (by decide)
  rw [hieq] at hi2
  rw [hi2]
  decide

/-! ## Main-loop invariants -/

theorem processName_shape (o : Oracles) (ipfx apfx : String) (dry : Bool)
    (st : List String) (name : String) :
    ((FILE_EXTS.lookup (strLower (splitext name).2)).isNone = true ∧
       processName o ipfx apfx dry st name = (.notMedia name, st)) ∨
    (is_already_renamed name = true ∧
       processName o ipfx apfx dry st name = (.already name, st)) ∨
    (name = unique_target st (plannedBase o ipfx apfx name) (strLower (splitext name).2) ∧
       processName o ipfx apfx dry st name = (.sameName name, st)) ∨
    (∃ d, d = unique_target st (plannedBase o ipfx apfx name) (strLower (splitext name).2) ∧
       name ≠ d ∧
       processName o ipfx apfx dry st name =
         (.plan name d st, if dry then st else d :: st.erase name)) := by
  unfold processName
  by_cases h1 : (FILE_EXTS.lookup (strLower (splitext name).2)).isNone
  · exact Or.inl ⟨h1, by simp [h1]⟩
  · by_cases h2 : is_already_renamed name
    · refine Or.inr (Or.inl ⟨h2, ?_⟩)
      simp [h1, h2]
    · by_cases h3 :
        name = unique_target st (plannedBase o ipfx apfx name) (strLower (splitext name).2)
      · refine Or.inr (Or.inr (Or.inl ⟨h3, ?_⟩))
        simp [h1, h2, ← h3]
      · refine Or.inr (Or.inr (Or.inr ⟨_, rfl, h3, ?_⟩))
        simp [h1, h2, h3]

theorem processName_plan_of_mem (o : Oracles) (ipfx apfx : String) (dry : Bool)
    (st : List String) (name : String) (hmem : name ∈ st)
    (hrec : (FILE_EXTS.lookup (strLower (splitext name).2)).isNone = false)
    (halr : is_already_renamed name = false) :
    processName o ipfx apfx dry st name =
      (.plan name (unique_target st (plannedBase o ipfx apfx name)
          (strLower (splitext name).2)) st,
       if dry then st
       else unique_target st (plannedBase o ipfx apfx name) (strLower (splitext name).2) ::
         st.erase name) := by
  rcases processName_shape o ipfx apfx dry st name with ⟨h, -⟩ | ⟨h, -⟩ | ⟨h, -⟩ | ⟨d, hd, -, he⟩
  · rw [h] at hrec; cases hrec
  · rw [h] at halr; cases halr
  · exact absurd (h ▸ hmem) (unique_target_not_mem st _ _)
  · rw [he, hd]

theorem processName_fst_ne_same (o : Oracles) (ipfx apfx : String) (dry : Bool)
    (st : List String) (name : String) (hmem : name ∈ st) (nm : String) :
    (processName o ipfx apfx dry st name).1 ≠ .sameName nm := by
  rcases processName_shape o ipfx apfx dry st name with ⟨-, h⟩ | ⟨-, h⟩ | ⟨he, h⟩ | ⟨d, -, -, h⟩
  · rw [h]; intro hc; cases hc
  · rw [h]; intro hc; cases hc
  · exact absurd (he ▸ hmem) (unique_target_not_mem st _ _)
  · rw [h]; intro hc; cases hc

theorem runAux_cons (o : Oracles) (ipfx apfx : String) (dry : Bool)
    (st : List String) (n : String) (ns : List String) :
    runAux o ipfx apfx dry st (n :: ns) =
      ((processName o ipfx apfx dry st n).1 ::
        (runAux o ipfx apfx dry (processName o ipfx apfx dry st n).2 ns).1,
       (runAux o ipfx apfx dry (processName o ipfx apfx dry st n).2 ns).2) := rfl

theorem runAux_basic (o : Oracles) (ipfx apfx : String) (dry : Bool) :
    ∀ (names st : List String), names.Nodup → (∀ n ∈ names, n ∈ st) →
      (∀ s d fs, RunEv.plan s d fs ∈ (runAux o ipfx apfx dry st names).1 →
        d ∉ fs ∧ s ∈ fs) ∧
      (∀ nm, RunEv.sameName nm ∉ (runAux o ipfx apfx dry st names).1) ∧
      (∀ n ∈ names, (FILE_EXTS.lookup (strLower (splitext n).2)).isNone = false →
        is_already_renamed n = false →
        ∃ d fs, RunEv.plan n d fs ∈ (runAux o ipfx apfx dry st names).1) := by
  intro names
  induction names with
  | nil =>
    intro st _ _
    refine ⟨?_, ?_, ?_⟩ <;> simp [runAux]
  | cons n ns ih =>
    intro st hnd hsub
    have hnmem : n ∈ st := hsub n (List.mem_cons_self ..)
    have hnd' : ns.Nodup := (List.nodup_cons.mp hnd).2
    have hnin : n ∉ ns := (List.nodup_cons.mp hnd).1
    have hsub' : ∀ m ∈ ns, m ∈ (processName o ipfx apfx dry st n).2 := by
      intro m hm
      have hmn : m ≠ n := fun he => hnin (he ▸ hm)
      have hmst : m ∈ st := hsub m (List.mem_cons_of_mem _ hm)
      rcases processName_shape o ipfx apfx dry st n with
        ⟨-, h⟩ | ⟨-, h⟩ | ⟨-, h⟩ | ⟨d, -, -, h⟩
      · rw [h]; exact hmst
      · rw [h]; exact hmst
      · rw [h]; exact hmst
      · rw [h]
        cases dry with
        | true => exact hmst
        | false => exact List.mem_cons_of_mem _ (List.mem_erase_of_ne hmn |>.2 hmst)
    obtain ⟨ihA, ihS, ihP⟩ := ih (processName o ipfx apfx dry st n).2 hnd' hsub'
    refine ⟨?_, ?_, ?_⟩
    · intro s d fs hmem
      rw [runAux_cons] at hmem
      rcases List.mem_cons.mp hmem with he | hm
      · rcases processName_shape o ipfx apfx dry st n with
          ⟨-, h⟩ | ⟨-, h⟩ | ⟨-, h⟩ | ⟨d', hd', -, h⟩
        · rw [h] at he; cases he
        · rw [h] at he; cases he
        · rw [h] at he; cases he
        · rw [h] at he
          injection he with h1 h2 h3
          subst h1
          rw [h2, h3]
          exact ⟨by rw [hd']; exact unique_target_not_mem st _ _, hnmem⟩
      · exact ihA s d fs hm
    · intro nm
      rw [runAux_cons]
      intro hmem
      rcases List.mem_cons.mp hmem with he | hm
      · exact processName_fst_ne_same o ipfx apfx dry st n hnmem nm he.symm
      · exact ihS nm hm
    · intro m hm hrec halr
      rcases List.mem_cons.mp hm with rfl | hm'
      · have h := processName_plan_of_mem o ipfx apfx dry st m hnmem hrec halr
        refine ⟨unique_target st (plannedBase o ipfx apfx m) (strLower (splitext m).2), st, ?_⟩
        rw [runAux_cons, h]
        exact List.mem_cons_self ..
      · obtain ⟨d, fs, hin⟩ := ihP m hm' hrec halr
        exact ⟨d, fs, by rw [runAux_cons]; exact List.mem_cons_of_mem _ hin⟩

theorem runAux_dry (o : Oracles) (ipfx apfx : String) :
    ∀ (names st : List String),
      (runAux o ipfx apfx true st names).2 = st ∧
      (∀ s d fs, RunEv.plan s d fs ∈ (runAux o ipfx apfx true st names).1 →
        fs = st ∧ d ∉ st) := by
  intro names
  induction names with
  | nil =>
    intro st
    exact ⟨rfl, by simp [runAux]⟩
  | cons n ns ih =>
    intro st
    have hst : (processName o ipfx apfx true st n).2 = st := by
      rcases processName_shape o ipfx apfx true st n with
        ⟨-, h⟩ | ⟨-, h⟩ | ⟨-, h⟩ | ⟨d, -, -, h⟩ <;> simp [h]
    constructor
    · rw [runAux_cons, hst]
      exact (ih st).1
    · intro s d fs hmem
      rw [runAux_cons] at hmem
      rcases List.mem_cons.mp hmem with he | hm
      · rcases processName_shape o ipfx apfx true st n with
          ⟨-, h⟩ | ⟨-, h⟩ | ⟨-, h⟩ | ⟨d', hd', -, h⟩
        · rw [h] at he; cases he
        · rw [h] at he; cases he
        · rw [h] at he; cases he
        · rw [h] at he
          injection he with h1 h2 h3
          refine ⟨h3, ?_⟩
          rw [h2, hd']
          exact unique_target_not_mem st _ _
      · rw [hst] at hm
        exact (ih st).2 s d fs hm

theorem runAux_nodup_dst (o : Oracles) (ipfx apfx : String) :
    ∀ (names st : List String), names.Nodup → (∀ n ∈ names, n ∈ st) →
      (∀ x, x ∈ st → x ∉ names →
        ∀ s d fs, RunEv.plan s d fs ∈ (runAux o ipfx apfx false st names).1 → x ∈ fs) ∧
      ((runAux o ipfx apfx false st names).1.filterMap planDst).Nodup := by
  intro names
  induction names with
  | nil =>
    intro st _ _
    refine ⟨by simp [runAux], by simp [runAux]⟩
  | cons n ns ih =>
    intro st hnd hsub
    have hnmem : n ∈ st := hsub n (List.mem_cons_self ..)
    have hnd' : ns.Nodup := (List.nodup_cons.mp hnd).2
    have hnin : n ∉ ns := (List.nodup_cons.mp hnd).1
    have hsub' : ∀ m ∈ ns, m ∈ (processName o ipfx apfx false st n).2 := by
      intro m hm
      have hmn : m ≠ n := fun he => hnin (he ▸ hm)
      have hmst : m ∈ st := hsub m (List.mem_cons_of_mem _ hm)
      rcases processName_shape o ipfx apfx false st n with
        ⟨-, h⟩ | ⟨-, h⟩ | ⟨-, h⟩ | ⟨d, -, -, h⟩
      · rw [h]; exact hmst
      · rw [h]; exact hmst
      · rw [h]; exact hmst
      · rw [h]
        exact List.mem_cons_of_mem _ (List.mem_erase_of_ne hmn |>.2 hmst)
    obtain ⟨ihB, ihC⟩ := ih (processName o ipfx apfx false st n).2 hnd' hsub'
    rcases processName_shape o ipfx apfx false st n with
      ⟨-, h⟩ | ⟨-, h⟩ | ⟨-, h⟩ | ⟨d, hd, -, h⟩
    · constructor
      · intro x hx hxn s dd fs hmem
        rw [runAux_cons] at hmem
        rcases List.mem_cons.mp hmem with he | hm
        · rw [h] at he; cases he
        · have hx' : x ∈ (processName o ipfx apfx false st n).2 := by rw [h]; exact hx
          exact ihB x hx' (fun hc => hxn (List.mem_cons_of_mem _ hc)) s dd fs hm
      · rw [runAux_cons]
        have hev : planDst (processName o ipfx apfx false st n).1 = none := by
          rw [h]; rfl
        simpa [List.filterMap_cons, hev] using ihC
    · constructor
      · intro x hx hxn s dd fs hmem
        rw [runAux_cons] at hmem
        rcases List.mem_cons.mp hmem with he | hm
        · rw [h] at he; cases he
        · have hx' : x ∈ (processName o ipfx apfx false st n).2 := by rw [h]; exact hx
          exact ihB x hx' (fun hc => hxn (List.mem_cons_of_mem _ hc)) s dd fs hm
      · rw [runAux_cons]
        have hev : planDst (processName o ipfx apfx false st n).1 = none := by
          rw [h]; rfl
        simpa [List.filterMap_cons, hev] using ihC
    · constructor
      · intro x hx hxn s dd fs hmem
        rw [runAux_cons] at hmem
        rcases List.mem_cons.mp hmem with he | hm
        · rw [h] at he; cases he
        · have hx' : x ∈ (processName o ipfx apfx false st n).2 := by rw [h]; exact hx
          exact ihB x hx' (fun hc => hxn (List.mem_cons_of_mem _ hc)) s dd fs hm
      · rw [runAux_cons]
        have hev : planDst (processName o ipfx apfx false st n).1 = none := by
          rw [h]; rfl
        simpa [List.filterMap_cons, hev] using ihC
    · have hdst : d ∉ st := by rw [hd]; exact unique_target_not_mem st _ _
      have hdns : d ∉ ns := fun hc => hdst (hsub d (List.mem_cons_of_mem _ hc))
      have hdst' : d ∈ (processName o ipfx apfx false st n).2 := by
        rw [h]; exact List.mem_cons_self ..
      constructor
      · intro x hx hxn s dd fs hmem
        have hxn' : x ≠ n := fun he => hxn (he ▸ List.mem_cons_self ..)
        rw [runAux_cons] at hmem
        rcases List.mem_cons.mp hmem with he | hm
        · rw [h] at he
          injection he with h1 h2 h3
          rw [h3]
          exact hx
        · have hx' : x ∈ (processName o ipfx apfx false st n).2 := by
            rw [h]
            exact List.mem_cons_of_mem _ (List.mem_erase_of_ne hxn' |>.2 hx)
          exact ihB x hx' (fun hc => hxn (List.mem_cons_of_mem _ hc)) s dd fs hm
      · rw [runAux_cons]
        have hev : planDst (processName o ipfx apfx false st n).1 = some d := by
          rw [h]; rfl
        rw [List.filterMap_cons, hev]
        rw [List.nodup_cons]
        refine ⟨?_, ihC⟩
        intro hdmem
        obtain ⟨ev', hev', hpd⟩ := List.mem_filterMap.mp hdmem
        have hA := (runAux_basic o ipfx apfx false ns
          (processName o ipfx apfx false st n).2 hnd' hsub').1
        cases ev' with
        | notMedia nm => cases hpd
        | already nm => cases hpd
        | sameName nm => cases hpd
        | plan s' d' fs' =>
          have hd' : d' = d := by simpa [planDst] using hpd
          subst hd'
          have hnotfs : d' ∉ fs' := (hA s' d' fs' hev').1
          exact hnotfs (ihB d' hdst' hdns s' d' fs' hev')

/-- Claim C2: destinations are claimed unique in every run including
dry-run; but in a dry run nothing is renamed and `unique_target` consults
only the unchanged directory, so two files resolving to the same base name
are both assigned the same destination. -/
theorem c2_counterexample :
    (mainRun ⟨fun _ => none, fun _ => none, fun _ => ⟨2025, 3, 1, 10, 0, 0, 0, some 0⟩⟩
        "iphone" "android" true ["a.mov", "b.mov"]).1 =
      [RunEv.plan "a.mov" "20250301-020000-iphone.mov" ["a.mov", "b.mov"],
       RunEv.plan "b.mov" "20250301-020000-iphone.mov" ["a.mov", "b.mov"]] := by decide

/-- Claim C2, amended: in a non-dry run every planned destination is absent
from the directory contents consulted at plan time and the planned
destinations are pairwise distinct; in a dry run uniqueness holds only
against the (unchanged) pre-existing directory contents, and two files of
one invocation can be assigned the same destination. -/
theorem c2_amended (o : Oracles) (ipfx apfx : String) (names : List String)
    (hnd : names.Nodup) :
    (((mainRun o ipfx apfx false names).1.filterMap planDst).Nodup ∧
      (∀ s d fs, RunEv.plan s d fs ∈ (mainRun o ipfx apfx false names).1 →
        d ∉ fs ∧ s ∈ fs)) ∧
    (∀ s d fs, RunEv.plan s d fs ∈ (mainRun o ipfx apfx true names).1 →
      fs = names ∧ d ∉ names) := by
  refine ⟨⟨?_, ?_⟩, ?_⟩
  · exact (runAux_nodup_dst o ipfx apfx names names hnd (fun _ h => h)).2
  · exact (runAux_basic o ipfx apfx false names names hnd (fun _ h => h)).1
  · exact (runAux_dry o ipfx apfx names names).2

theorem c2_amended_witness :
    (["a.mov", "b.mov"] : List String).Nodup ∧
      ((mainRun ⟨fun _ => none, fun _ => none, fun _ => ⟨2025, 3, 1, 10, 0, 0, 0, some 0⟩⟩
          "iphone" "android" false ["a.mov", "b.mov"]).1.filterMap planDst).Nodup :=
  ⟨by decide,
    (c2_amended ⟨fun _ => none, fun _ => none, fun _ => ⟨2025, 3, 1, 10, 0, 0, 0, some 0⟩⟩
      "iphone" "android" ["a.mov", "b.mov"] (by decide)).1.1⟩

/-- Claim C10: a planned destination never exists in the directory contents
consulted at plan time, hence never equals the (existing) source, the
destination-equals-source skip branch is unreachable, and every processed
file that is a recognized media file and not already canonically named
yields a rename plan (in dry and non-dry runs alike). -/
theorem c10_no_same_skip (o : Oracles) (ipfx apfx : String) (dry : Bool)
    (names : List String) (hnd : names.Nodup) :
    (∀ s d fs, RunEv.plan s d fs ∈ (mainRun o ipfx apfx dry names).1 →
      d ∉ fs ∧ s ∈ fs ∧ s ≠ d) ∧
    (∀ nm, RunEv.sameName nm ∉ (mainRun o ipfx apfx dry names).1) ∧
    (∀ n ∈ names, (FILE_EXTS.lookup (strLower (splitext n).2)).isNone = false →
      is_already_renamed n = false →
      ∃ d fs, RunEv.plan n d fs ∈ (mainRun o ipfx apfx dry names).1) := by
  obtain ⟨hA, hS, hP⟩ := runAux_basic o ipfx apfx dry names names hnd (fun _ h => h)
  refine ⟨?_, hS, hP⟩
  intro s d fs hmem
  obtain ⟨h1, h2⟩ := hA s d fs hmem
  exact ⟨h1, h2, fun he => h1 (he ▸ h2)⟩

theorem c10_witness :
    ((["clip.mov"] : List String).Nodup ∧
      (FILE_EXTS.lookup (strLower (splitext "clip.mov").2)).isNone = false ∧
      is_already_renamed "clip.mov" = false) ∧
      ∃ d fs, RunEv.plan "clip.mov" d fs ∈
        (mainRun ⟨fun _ => none, fun _ => none, fun _ => ⟨2025, 3, 1, 10, 0, 0, 0, some 0⟩⟩
          "iphone" "android" true ["clip.mov"]).1 :=
  ⟨⟨by decide, by decide, by decide⟩,
    (c10_no_same_skip ⟨fun _ => none, fun _ => none, fun _ => ⟨2025, 3, 1, 10, 0, 0, 0, some 0⟩⟩
        "iphone" "android" true ["clip.mov"] (by decide)).2.2 "clip.mov"
      (by decide) (by decide) (by decide)⟩

/-! ## Format/parse round-trip (for claim C9) -/

theorem digitChar_isDigit (n : Nat) : (digitChar n).isDigit = true := by
  have h : n % 10 < 10 := Nat.mod_lt _ (by omega)
  unfold digitChar
  interval_cases hm : n % 10 <;> rfl

theorem digitChar_ne_dash (n : Nat) : digitChar n ≠ '-' := by
  have h : n % 10 < 10 := Nat.mod_lt _ (by omega)
  unfold digitChar
  interval_cases hm : n % 10 <;> decide

theorem digitChar_ne_colon (n : Nat) : digitChar n ≠ ':' := by
  have h : n % 10 < 10 := Nat.mod_lt _ (by omega)
  unfold digitChar
  interval_cases hm : n % 10 <;> decide

theorem digitChar_ne_Z (n : Nat) : digitChar n ≠ 'Z' := by
  have h : n % 10 < 10 := Nat.mod_lt _ (by omega)
  unfold digitChar
  interval_cases hm : n % 10 <;> decide

theorem digitChar_ne_space (n : Nat) : digitChar n ≠ ' ' := by
  have h : n % 10 < 10 := Nat.mod_lt _ (by omega)
  unfold digitChar
  interval_cases hm : n % 10 <;> decide

theorem digitChar_not_ws (n : Nat) : (digitChar n).isWhitespace = false := by
  have h : n % 10 < 10 := Nat.mod_lt _ (by omega)
  unfold digitChar
  interval_cases hm : n % 10 <;> decide

theorem read2_digits (a b : Nat) (r : List Char) :
    read2 (digitChar a :: digitChar b :: r) = some (a % 10 * 10 + b % 10, r) := by
  simp [read2, digitChar_isDigit, digitVal_digitChar]

theorem read4_digits (a b c d : Nat) (r : List Char) :
    read4 (digitChar a :: digitChar b :: digitChar c :: digitChar d :: r) =
      some ((a % 10 * 10 + b % 10) * 100 + (c % 10 * 10 + d % 10), r) := by
  simp [read4, read2_digits]

theorem formatStamp_data (dt : PyDatetime) :
    (formatStamp dt).data =
      digitChar (dt.year / 1000 % 10) :: digitChar (dt.year / 100 % 10) ::
      digitChar (dt.year / 10 % 10) :: digitChar (dt.year % 10) ::
      digitChar (dt.month / 10 % 10) :: digitChar (dt.month % 10) ::
      digitChar (dt.day / 10 % 10) :: digitChar (dt.day % 10) :: '-' ::
      digitChar (dt.hour / 10 % 10) :: digitChar (dt.hour % 10) ::
      digitChar (dt.minute / 10 % 10) :: digitChar (dt.minute % 10) ::
      digitChar (dt.second / 10 % 10) :: digitChar (dt.second % 10) :: [] := rfl

theorem parseDateIso_digits (y mo d : Nat) (r : List Char) :
    parseDateIso (digitChar (y / 1000 % 10) :: digitChar (y / 100 % 10) ::
        digitChar (y / 10 % 10) :: digitChar (y % 10) ::
        digitChar (mo / 10 % 10) :: digitChar (mo % 10) ::
        digitChar (d / 10 % 10) :: digitChar (d % 10) :: r) =
      some (y % 10000, mo % 100, d % 100, r) := by
  simp only [parseDateIso, read4_digits, read2_digits,
    if_neg (digitChar_ne_dash (mo / 10 % 10))]
  have hy : y / 1000 % 10 % 10 * 10 + y / 100 % 10 % 10 = y / 100 % 100 := by omega
  have h4 : (y / 1000 % 10 % 10 * 10 + y / 100 % 10 % 10) * 100 +
      (y / 10 % 10 % 10 * 10 + y % 10 % 10) = y % 10000 := by omega
  have hmo : mo / 10 % 10 % 10 * 10 + mo % 10 % 10 = mo % 100 := by omega
  have hd : d / 10 % 10 % 10 * 10 + d % 10 % 10 = d % 100 := by omega
  rw [h4, hmo, hd]

theorem parseTimeIso_digits (h mi s : Nat) :
    parseTimeIso (digitChar (h / 10 % 10) :: digitChar (h % 10) ::
        digitChar (mi / 10 % 10) :: digitChar (mi % 10) ::
        digitChar (s / 10 % 10) :: digitChar (s % 10) :: []) =
      some (h % 100, mi % 100, s % 100, 0, []) := by
  simp only [parseTimeIso, read2_digits, if_neg (digitChar_ne_colon (mi / 10 % 10)),
    parseAfterSec]
  have hh : h / 10 % 10 % 10 * 10 + h % 10 % 10 = h % 100 := by omega
  have hmi : mi / 10 % 10 % 10 * 10 + mi % 10 % 10 = mi % 100 := by omega
  have hs : s / 10 % 10 % 10 * 10 + s % 10 % 10 = s % 100 := by omega
  rw [hh, hmi, hs]

theorem validDateB_of_valid (dt : PyDatetime) (hv : ValidCivil dt) :
    validDateB dt.year dt.month dt.day = true := by
  obtain ⟨h1, h2, h3, h4, h5, h6, -⟩ := hv
  simp only [validDateB, Bool.and_eq_true, decide_eq_true_eq]
  refine ⟨⟨⟨⟨⟨h1, h2⟩, h3⟩, h4⟩, h5⟩, h6⟩

theorem validTimeB_of_valid (dt : PyDatetime) (hv : ValidCivil dt) :
    validTimeB dt.hour dt.minute dt.second = true := by
  obtain ⟨-, -, -, -, -, -, h7, h8, h9, -⟩ := hv
  simp only [validTimeB, Bool.and_eq_true, decide_eq_true_eq]
  exact ⟨⟨h7, h8⟩, h9⟩

theorem pyFromisoformat_formatStamp (dt : PyDatetime) (hv : ValidCivil dt) :
    pyFromisoformat (formatStamp dt) =
      some ⟨dt.year, dt.month, dt.day, dt.hour, dt.minute, dt.second, 0, none⟩ := by
  obtain ⟨h1, h2, h3, h4, h5, h6, h7, h8, h9, h10⟩ := hv
  have hmod4 : dt.year % 10000 = dt.year := Nat.mod_eq_of_lt (by omega)
  have hmo : dt.month % 100 = dt.month := Nat.mod_eq_of_lt (by omega)
  have hd : dt.day % 100 = dt.day := by
    have : dt.day ≤ 31 := le_trans h6 (by unfold daysInMonth; split_ifs <;> omega)
    exact Nat.mod_eq_of_lt (by omega)
  have hh : dt.hour % 100 = dt.hour := Nat.mod_eq_of_lt (by omega)
  have hmi : dt.minute % 100 = dt.minute := Nat.mod_eq_of_lt (by omega)
  have hs : dt.second % 100 = dt.second := Nat.mod_eq_of_lt (by omega)
  have hstep : pyFromisoformat (formatStamp dt) =
      (match parseDateIso (formatStamp dt).data with
       | some (y, mo, d, r) =>
         match r with
         | [] => if validDateB y mo d then some ⟨y, mo, d, 0, 0, 0, 0, none⟩ else none
         | _sep :: r1 =>
           match parseTimeIso r1 with
           | some (h, mi, s, us, r2) =>
             (match parseTzIso r2 with
              | some off =>
                if validDateB y mo d && validTimeB h mi s then
                  some ⟨y, mo, d, h, mi, s, us, off⟩
                else none
              | none => none)
           | none => none
       | none => none) := rfl
  rw [hstep, formatStamp_data]
  rw [parseDateIso_digits]
  simp only [parseTimeIso_digits]
  simp only [parseTzIso]
  rw [hmod4, hmo, hd, hh, hmi, hs]
  rw [validDateB_of_valid dt ⟨h1, h2, h3, h4, h5, h6, h7, h8, h9, h10⟩,
    validTimeB_of_valid dt ⟨h1, h2, h3, h4, h5, h6, h7, h8, h9, h10⟩]
  rfl

theorem dropWhile_eq_self_of_none (p : Char → Bool) :
    ∀ l : List Char, (∀ c ∈ l, p c = false) → l.dropWhile p = l := by
  intro l hl
  cases l with
  | nil => rfl
  | cons c t => simp [List.dropWhile_cons, hl c (List.mem_cons_self ..)]

theorem formatStamp_chars (dt : PyDatetime) :
    ∀ c ∈ (formatStamp dt).data, c = '-' ∨ ∃ n, c = digitChar n := by
  intro c hc
  rw [formatStamp_data] at hc
  simp only [List.mem_cons, List.not_mem_nil, or_false] at hc
  rcases hc with rfl | rfl | rfl | rfl | rfl | rfl | rfl | rfl | rfl | rfl | rfl | rfl |
    rfl | rfl | rfl
  all_goals first
  | exact Or.inl rfl
  | exact Or.inr ⟨_, rfl⟩

theorem pyStrip_formatStamp (dt : PyDatetime) :
    pyStrip (formatStamp dt) = formatStamp dt := by
  have hws : ∀ c ∈ (formatStamp dt).data, c.isWhitespace = false := by
    intro c hc
    rcases formatStamp_chars dt c hc with rfl | ⟨n, rfl⟩
    · decide
    · exact digitChar_not_ws n
  unfold pyStrip
  rw [dropWhile_eq_self_of_none _ _ hws,
    dropWhile_eq_self_of_none _ _ (fun c hc => hws c (List.mem_reverse.mp hc)),
    List.reverse_reverse]

theorem endsWithZ_formatStamp (dt : PyDatetime) : endsWithZ (formatStamp dt) = false := by
  unfold endsWithZ
  rw [show (formatStamp dt).data =
      (digitChar (dt.year / 1000 % 10) :: digitChar (dt.year / 100 % 10) ::
       digitChar (dt.year / 10 % 10) :: digitChar (dt.year % 10) ::
       digitChar (dt.month / 10 % 10) :: digitChar (dt.month % 10) ::
       digitChar (dt.day / 10 % 10) :: digitChar (dt.day % 10) :: '-' ::
       digitChar (dt.hour / 10 % 10) :: digitChar (dt.hour % 10) ::
       digitChar (dt.minute / 10 % 10) :: digitChar (dt.minute % 10) ::
       digitChar (dt.second / 10 % 10) :: []) ++ [digitChar (dt.second % 10)] from rfl]
  rw [List.getLast?_concat]
  simp [digitChar_ne_Z]

theorem flatMap_eq_self_of_none (c : Char) (rs : List Char) :
    ∀ l : List Char, (∀ a ∈ l, a ≠ c) →
      (l.flatMap fun a => if a = c then rs else [a]) = l := by
  intro l hl
  induction l with
  | nil => rfl
  | cons a t ih =>
    rw [List.flatMap_cons, if_neg (hl a (List.mem_cons_self ..)),
      ih (fun x hx => hl x (List.mem_cons_of_mem _ hx))]
    rfl

theorem replaceChar_formatStamp (dt : PyDatetime) :
    replaceChar ' ' "T" (formatStamp dt) = formatStamp dt := by
  have hchars : ∀ a ∈ (formatStamp dt).data, a ≠ ' ' := by
    intro a ha
    rcases formatStamp_chars dt a ha with rfl | ⟨n, rfl⟩
    · decide
    · exact digitChar_ne_space n
  unfold replaceChar
  rw [flatMap_eq_self_of_none _ _ _ hchars]

theorem parse_iso_formatStamp (dt : PyDatetime) (hv : ValidCivil dt) :
    parse_iso_to_utc (formatStamp dt) =
      some ⟨dt.year, dt.month, dt.day, dt.hour, dt.minute, dt.second, 0, some 0⟩ := by
  have hstep : parse_iso_to_utc (formatStamp dt) =
      (let s0 := pyStrip (formatStamp dt)
       let s1 := if endsWithZ s0 then replaceChar 'Z' "+00:00" s0 else s0
       let s2 := replaceChar ' ' "T" s1
       match pyFromisoformat s2 with
       | some dt2 => some (toUtc dt2)
       | none =>
         match strptimeYmdHMS s2 with
         | some dt2 => some (setUtc dt2)
         | none =>
           match strptimeYmdHMSf s2 with
           | some dt2 => some (setUtc dt2)
           | none => none) := rfl
  rw [hstep]
  simp only [pyStrip_formatStamp, endsWithZ_formatStamp, if_neg (by simp : ¬False),
    Bool.false_eq_true, if_false, replaceChar_formatStamp]
  rw [pyFromisoformat_formatStamp dt hv]
  rfl

theorem daysInMonth_bounds (y mo : Nat) : 1 ≤ daysInMonth y mo ∧ daysInMonth y mo ≤ 31 := by
  unfold daysInMonth
  split_ifs <;> omega

theorem daysInMonth_dec (y : Nat) : daysInMonth y 12 = 31 := by
  norm_num [daysInMonth]

theorem prevDayD_valid (dt : PyDatetime) (hv : ValidCivil dt) (hy2 : 2 ≤ dt.year) :
    1 ≤ (prevDayD dt.year dt.month dt.day).1 ∧
    (prevDayD dt.year dt.month dt.day).1 ≤ 9999 ∧
    1 ≤ (prevDayD dt.year dt.month dt.day).2.1 ∧
    (prevDayD dt.year dt.month dt.day).2.1 ≤ 12 ∧
    1 ≤ (prevDayD dt.year dt.month dt.day).2.2 ∧
    (prevDayD dt.year dt.month dt.day).2.2 ≤
      daysInMonth (prevDayD dt.year dt.month dt.day).1 (prevDayD dt.year dt.month dt.day).2.1 ∧
    dt.year - 1 ≤ (prevDayD dt.year dt.month dt.day).1 ∧
    (prevDayD dt.year dt.month dt.day).1 ≤ dt.year := by
  obtain ⟨h1, h2, h3, h4, h5, h6, -⟩ := hv
  unfold prevDayD
  split_ifs with ha hb <;> dsimp only
  · exact ⟨h1, h2, h3, h4, by omega, by omega, by omega, by omega⟩
  · refine ⟨h1, h2, by omega, by omega, (daysInMonth_bounds _ _).1, le_refl _, by omega,
      by omega⟩
  · refine ⟨by omega, by omega, by omega, by omega, by omega, ?_, by omega, by omega⟩
    rw [daysInMonth_dec]

theorem shiftCivil_neg_valid (dt : PyDatetime) (delta : Int)
    (hd1 : -86400 < delta) (hd2 : delta ≤ 0) (hv : ValidCivil dt) (hy2 : 2 ≤ dt.year) :
    ValidCivil (shiftCivil dt delta) ∧
      dt.year - 1 ≤ (shiftCivil dt delta).year ∧ (shiftCivil dt delta).year ≤ dt.year := by
  have hvc := hv
  obtain ⟨h1, h2, h3, h4, h5, h6, h7, h8, h9, h10⟩ := hvc
  have hsodn : dt.hour * 3600 + dt.minute * 60 + dt.second ≤ 86399 := by omega
  unfold shiftCivil
  by_cases hneg : ((dt.hour * 3600 + dt.minute * 60 + dt.second : Nat) : Int) + delta < 0
  · rw [if_pos hneg]
    have hp := prevDayD_valid dt hv hy2
    have ht2 : (((dt.hour * 3600 + dt.minute * 60 + dt.second : Nat) : Int) + delta +
        86400).toNat ≤ 86399 := by omega
    simp only [ValidCivil]
    refine ⟨⟨hp.1, hp.2.1, hp.2.2.1, hp.2.2.2.1, hp.2.2.2.2.1, hp.2.2.2.2.2.1,
      by omega, by omega, by omega, h10⟩, hp.2.2.2.2.2.2.1, hp.2.2.2.2.2.2.2⟩
  · have hlt : ((dt.hour * 3600 + dt.minute * 60 + dt.second : Nat) : Int) + delta <
        86400 := by omega
    rw [if_neg hneg, if_pos hlt]
    have ht2 : (((dt.hour * 3600 + dt.minute * 60 + dt.second : Nat) : Int) +
        delta).toNat ≤ 86399 := by omega
    simp only [ValidCivil]
    exact ⟨⟨h1, h2, h3, h4, h5, h6, by omega, by omega, by omega, h10⟩, by omega, le_refl _⟩

theorem shiftCivil_neg_ne (dt : PyDatetime) (delta : Int)
    (hd1 : -86400 < delta) (hd2 : delta < 0) (hv : ValidCivil dt) :
    ¬ ((shiftCivil dt delta).year = dt.year ∧ (shiftCivil dt delta).month = dt.month ∧
       (shiftCivil dt delta).day = dt.day ∧ (shiftCivil dt delta).hour = dt.hour ∧
       (shiftCivil dt delta).minute = dt.minute ∧
       (shiftCivil dt delta).second = dt.second) := by
  obtain ⟨h1, h2, h3, h4, h5, h6, h7, h8, h9, -⟩ := hv
  unfold shiftCivil
  by_cases hneg : ((dt.hour * 3600 + dt.minute * 60 + dt.second : Nat) : Int) + delta < 0
  · rw [if_pos hneg]
    unfold prevDayD
    split_ifs with ha hb <;> simp only <;> intro hc
    · omega
    · omega
    · omega
  · have hlt : ((dt.hour * 3600 + dt.minute * 60 + dt.second : Nat) : Int) + delta <
        86400 := by omega
    rw [if_neg hneg, if_pos hlt]
    simp only
    rintro ⟨-, -, -, hh, hm, hs⟩
    omega

theorem pacOffset_bounds (dt : PyDatetime) : -86400 < pacOffset dt ∧ pacOffset dt < 0 := by
  unfold pacOffset
  split_ifs <;> exact ⟨by norm_num, by norm_num⟩

/-- Claim C9: claims the format-then-reparse round trip returns the same
instant modulo seconds; at 2025-03-01T10:00:00Z the stamp `20250301-020000`
re-parses (no timezone, assumed UTC) to 2025-03-01T02:00:00Z, eight hours
earlier. -/
theorem c9_counterexample :
    parse_iso_to_utc (pacific_stamp ⟨2025, 3, 1, 10, 0, 0, 0, some 0⟩) =
      some ⟨2025, 3, 1, 2, 0, 0, 0, some 0⟩ ∧
    (⟨2025, 3, 1, 2, 0, 0, 0, some 0⟩ : PyDatetime) ≠ ⟨2025, 3, 1, 10, 0, 0, 0, some 0⟩ :=
  ⟨by decide, by decide⟩

/-- Claim C9, amended: for every valid aware-UTC instant (year 2007–9999,
where the modelled tzdata rule applies), re-parsing the formatted
`YYYYMMDD-HHMMSS` string succeeds but yields the Pacific civil reading
reinterpreted as UTC — the instant shifted by the zone's UTC offset — and
never the original instant (the offset is −8h or −7h, nonzero). -/
theorem c9_amended (dt : PyDatetime) (hv : ValidCivil dt) (_htz : dt.tzOff = some 0)
    (hy1 : 2007 ≤ dt.year) :
    parse_iso_to_utc (pacific_stamp dt) =
      some { shiftCivil dt (pacOffset dt) with usec := 0, tzOff := some 0 } ∧
    parse_iso_to_utc (pacific_stamp dt) ≠ some { dt with usec := 0 } := by
  obtain ⟨hvS, -, -⟩ := shiftCivil_neg_valid dt (pacOffset dt) (pacOffset_bounds dt).1
    (le_of_lt (pacOffset_bounds dt).2) hv (by omega)
  have hmain : parse_iso_to_utc (pacific_stamp dt) =
      some { shiftCivil dt (pacOffset dt) with usec := 0, tzOff := some 0 } := by
    unfold pacific_stamp
    exact parse_iso_formatStamp (shiftCivil dt (pacOffset dt)) hvS
  refine ⟨hmain, ?_⟩
  rw [hmain]
  intro hc
  injection hc with hc2
  have e1 := congrArg PyDatetime.year hc2
  have e2 := congrArg PyDatetime.month hc2
  have e3 := congrArg PyDatetime.day hc2
  have e4 := congrArg PyDatetime.hour hc2
  have e5 := congrArg PyDatetime.minute hc2
  have e6 := congrArg PyDatetime.second hc2
  simp only at e1 e2 e3 e4 e5 e6
  exact shiftCivil_neg_ne dt (pacOffset dt) (pacOffset_bounds dt).1 (pacOffset_bounds dt).2
    hv ⟨e1, e2, e3, e4, e5, e6⟩

theorem c9_amended_witness :
    (ValidCivil ⟨2025, 3, 1, 10, 0, 0, 0, some 0⟩ ∧ (2007 : Nat) ≤ 2025) ∧
      parse_iso_to_utc (pacific_stamp ⟨2025, 3, 1, 10, 0, 0, 0, some 0⟩) ≠
        some ⟨2025, 3, 1, 10, 0, 0, 0, some 0⟩ := by
  refine ⟨⟨by decide, by decide⟩, ?_⟩
  exact (c9_amended ⟨2025, 3, 1, 10, 0, 0, 0, some 0⟩ (by decide) rfl (by decide)).2
